import Mathlib

/-!
Verification of the fuzzbench repository's two core modules against its
natural-language specification:

* `benchmarks/oss_fuzz_benchmark_integration.py` — the OSS-Fuzz benchmark
  integration script (time-series digest index, pinning resolver, benchmark
  integrator).
* `docker/generate_makefile.py` — the Makefile rule generator (build target
  graph generator).

Every definition below is a shallow embedding of the corresponding Python
code; the doc comment of each definition names the source function it embeds.
-/

namespace FuzzBench

/-! ## Time-series digest index
`BaseBuilderRepo` in `benchmarks/oss_fuzz_benchmark_integration.py`
(lines 68–86). -/

/-- Embedding of Python's `bisect.bisect_right(a, x)` restricted to the
sub-range `[lo, hi)`: the standard-library binary search loop
`while lo < hi: mid = (lo+hi)//2; if x < a[mid]: hi = mid else lo = mid+1`.
Out-of-range reads default to `0` (never exercised when `lo ≤ hi ≤ a.length`). -/
def bisectRightAux (a : List Nat) (x : Nat) (lo hi : Nat) : Nat :=
  if _h : lo < hi then
    if x < a.getD ((lo + hi) / 2) 0 then bisectRightAux a x lo ((lo + hi) / 2)
    else bisectRightAux a x ((lo + hi) / 2 + 1) hi
  else lo
termination_by hi - lo
decreasing_by
  · omega
  · omega

lemma bisectRightAux_pos (a : List Nat) (x : Nat) (lo hi : Nat)
    (h : lo < hi) :
    bisectRightAux a x lo hi =
      if x < a.getD ((lo + hi) / 2) 0 then bisectRightAux a x lo ((lo + hi) / 2)
      else bisectRightAux a x ((lo + hi) / 2 + 1) hi := by
  rw [bisectRightAux]
  exact dif_pos h

lemma bisectRightAux_neg (a : List Nat) (x : Nat) (lo hi : Nat)
    (h : ¬lo < hi) : bisectRightAux a x lo hi = lo := by
  rw [bisectRightAux]
  exact dif_neg h

/-- Embedding of `bisect.bisect_right(a, x)` over the whole list. -/
def bisectRight (a : List Nat) (x : Nat) : Nat :=
  bisectRightAux a x 0 a.length

/-- `BaseBuilderRepo` (lines 68–73): the repo of base-builder images, two
parallel lists of timestamps and digests.  Timestamps (UTC datetimes in the
source) are modelled as naturals; digests as strings. -/
structure BaseBuilderRepo where
  timestamps : List Nat
  digests : List String
deriving DecidableEq, Repr

/-- `BaseBuilderRepo.add_digest` (lines 75–78): append a (timestamp, digest)
pair to the two parallel lists. -/
def BaseBuilderRepo.add_digest (r : BaseBuilderRepo) (timestamp : Nat)
    (digest : String) : BaseBuilderRepo :=
  { timestamps := r.timestamps ++ [timestamp],
    digests := r.digests ++ [digest] }

/-- The message of the `ValueError` raised by `find_digest` when no entry is
at or before the queried timestamp (line 86). -/
def noSuitableMsg : String := "Failed to find suitable base-builder."

/-- The intended `BaseBuilderRepo.find_digest` (lines 80–86):
`index = bisect.bisect_right(self.timestamps, timestamp)`;
if `index > 0` return `self.digests[index - 1]`, else raise `ValueError`.
This is the body's semantics with the missing `import bisect` supplied —
the module's imports (lines 17–24) never bind `bisect`, so the staged code
itself cannot reach this behaviour; see `find_digest_staged`.  A Python
`IndexError` on the list subscript (impossible for repos built by
`add_digest`) is modelled as a distinct error message. -/
def BaseBuilderRepo.find_digest (r : BaseBuilderRepo) (timestamp : Nat) :
    Except String String :=
  let index := bisectRight r.timestamps timestamp
  if index > 0 then
    match r.digests.get? (index - 1) with
    | some d => .ok d
    | none => .error "IndexError"
  else
    .error noSuitableMsg

/-- The staged module's `find_digest` as it actually executes: the module
never imports `bisect`, so evaluating `bisect.bisect_right(...)` at line 82
raises `NameError` before any comparison happens — every call fails with
`NameError`, no digest is ever returned and the line-86 `ValueError` is
unreachable. -/
def BaseBuilderRepo.find_digest_staged (_r : BaseBuilderRepo)
    (_timestamp : Nat) : Except String String :=
  .error "NameError: name 'bisect' is not defined"

/-- A repo populated from a list of (timestamp, digest) entries by repeated
`add_digest` calls, in list order (as a caller of the index would do). -/
def repoOf (entries : List (Nat × String)) : BaseBuilderRepo :=
  entries.foldl (fun r p => r.add_digest p.1 p.2) ⟨[], []⟩

lemma repoOf_aux (entries : List (Nat × String)) (r : BaseBuilderRepo) :
    (entries.foldl (fun r p => r.add_digest p.1 p.2) r).timestamps
      = r.timestamps ++ entries.map Prod.fst ∧
    (entries.foldl (fun r p => r.add_digest p.1 p.2) r).digests
      = r.digests ++ entries.map Prod.snd := by
  induction entries generalizing r with
  | nil => simp
  | cons e es ih =>
    simpa [BaseBuilderRepo.add_digest] using ih (r.add_digest e.1 e.2)

lemma repoOf_timestamps (entries : List (Nat × String)) :
    (repoOf entries).timestamps = entries.map Prod.fst :=
  by simpa using (repoOf_aux entries ⟨[], []⟩).1

lemma repoOf_digests (entries : List (Nat × String)) :
    (repoOf entries).digests = entries.map Prod.snd :=
  by simpa using (repoOf_aux entries ⟨[], []⟩).2

/-- Correctness of the binary-search loop on a sorted range: the returned
index separates the elements `≤ x` (strictly below it) from the elements
`> x` (at or above it). -/
lemma bisectRightAux_spec (a : List Nat) (x : Nat) (lo hi : Nat)
    (hmono : ∀ i j, i ≤ j → j < a.length → a.getD i 0 ≤ a.getD j 0)
    (hlo : ∀ i, i < lo → a.getD i 0 ≤ x)
    (hhi : ∀ i, hi ≤ i → i < a.length → x < a.getD i 0)
    (h1 : lo ≤ hi) (h2 : hi ≤ a.length) :
    lo ≤ bisectRightAux a x lo hi ∧ bisectRightAux a x lo hi ≤ hi ∧
    (∀ i, i < bisectRightAux a x lo hi → a.getD i 0 ≤ x) ∧
    (∀ i, bisectRightAux a x lo hi ≤ i → i < a.length → x < a.getD i 0) := by
  by_cases h : lo < hi
  · rw [bisectRightAux_pos a x lo hi h]
    have hmlt : (lo + hi) / 2 < hi := by omega
    have hmge : lo ≤ (lo + hi) / 2 := by omega
    by_cases hx : x < a.getD ((lo + hi) / 2) 0
    · rw [if_pos hx]
      have hhi' : ∀ i, (lo + hi) / 2 ≤ i → i < a.length → x < a.getD i 0 := by
        intro i hi1 hi2
        exact lt_of_lt_of_le hx (hmono _ i hi1 hi2)
      have := bisectRightAux_spec a x lo ((lo + hi) / 2) hmono hlo hhi' hmge
        (by omega)
      exact ⟨this.1, by omega, this.2.2⟩
    · rw [if_neg hx]
      have hxle : a.getD ((lo + hi) / 2) 0 ≤ x := le_of_not_lt hx
      have hlo' : ∀ i, i < (lo + hi) / 2 + 1 → a.getD i 0 ≤ x := by
        intro i hi1
        rcases Nat.lt_or_ge i lo with hc | hc
        · exact hlo i hc
        · exact le_trans (hmono i _ (by omega) (by omega)) hxle
      have := bisectRightAux_spec a x ((lo + hi) / 2 + 1) hi hmono hlo' hhi
        (by omega) h2
      exact ⟨by omega, this.2.1, this.2.2⟩
  · rw [bisectRightAux_neg a x lo hi h]
    refine ⟨le_refl _, h1, hlo, ?_⟩
    intro i hi1 hi2
    exact hhi i (by omega) hi2
termination_by hi - lo
decreasing_by
  · omega
  · omega

/-- Correctness of `bisectRight` on a list sorted non-decreasingly. -/
lemma bisectRight_spec (a : List Nat) (x : Nat)
    (hsorted : a.Sorted (· ≤ ·)) :
    bisectRight a x ≤ a.length ∧
    (∀ i, i < bisectRight a x → a.getD i 0 ≤ x) ∧
    (∀ i, bisectRight a x ≤ i → i < a.length → x < a.getD i 0) := by
  have hmono : ∀ i j, i ≤ j → j < a.length → a.getD i 0 ≤ a.getD j 0 := by
    intro i j hij hj
    rcases eq_or_lt_of_le hij with rfl | hlt
    · exact le_refl _
    · have hi : i < a.length := lt_trans hlt hj
      rw [a.getD_eq_getElem 0 hi, a.getD_eq_getElem 0 hj]
      exact List.Sorted.rel_get_of_lt hsorted (by simpa using hlt)
  have := bisectRightAux_spec a x 0 a.length hmono
    (by intro i h; omega) (by intro i h1 h2; omega)
    (Nat.zero_le _) (le_refl _)
  exact ⟨this.2.1, this.2.2⟩

/-- General correctness of `find_digest` over an index populated by
`add_digest` in non-decreasing timestamp order. -/
lemma find_digest_spec (entries : List (Nat × String)) (q : Nat)
    (hsorted : (entries.map Prod.fst).Sorted (· ≤ ·)) :
    ((∃ p ∈ entries, p.1 ≤ q) →
      ∃ i, ∃ hi : i < entries.length,
        (entries.get ⟨i, hi⟩).1 ≤ q ∧
        (∀ j, ∀ hj : j < entries.length, (entries.get ⟨j, hj⟩).1 ≤ q →
          (entries.get ⟨j, hj⟩).1 ≤ (entries.get ⟨i, hi⟩).1) ∧
        (repoOf entries).find_digest q = .ok (entries.get ⟨i, hi⟩).2) ∧
    ((repoOf entries).find_digest q = .error noSuitableMsg ↔
      ∀ p ∈ entries, q < p.1) := by
  set ts := entries.map Prod.fst with hts
  have hlen : ts.length = entries.length := by simp [hts]
  have hspec := bisectRight_spec ts q hsorted
  set index := bisectRight ts q with hidx
  have htsget : ∀ i, ∀ hi : i < entries.length,
      ts.getD i 0 = (entries.get ⟨i, hi⟩).1 := by
    intro i hi
    rw [ts.getD_eq_getElem 0 (by omega)]
    simp [hts]
  have hfind : (repoOf entries).find_digest q =
      (if index > 0 then
        match (entries.map Prod.snd).get? (index - 1) with
        | some d => .ok d
        | none => .error "IndexError"
      else .error noSuitableMsg) := by
    rw [BaseBuilderRepo.find_digest, repoOf_timestamps, repoOf_digests, ← hts,
      ← hidx]
  constructor
  · rintro ⟨p, hp, hpq⟩
    have hpos : 0 < index := by
      by_contra hz
      have hidx0 : index = 0 := by omega
      obtain ⟨j, hj, hjp⟩ := List.getElem_of_mem hp
      have h1 : q < ts.getD j 0 := hspec.2.2 j (by omega) (by omega)
      rw [htsget j (by omega)] at h1
      rw [List.get_eq_getElem, hjp] at h1
      omega
    refine ⟨index - 1, by omega, ?_, ?_, ?_⟩
    · rw [← htsget (index - 1) (by omega)]
      exact hspec.2.1 _ (by omega)
    · intro j hj hjq
      by_cases hcase : j < index
      · have h1 : ts.getD j 0 ≤ ts.getD (index - 1) 0 := by
          rcases Nat.eq_or_lt_of_le (by omega : j ≤ index - 1) with rfl | hlt
          · exact le_refl _
          · rw [ts.getD_eq_getElem 0 (by omega), ts.getD_eq_getElem 0 (by omega)]
            exact List.Sorted.rel_get_of_lt hsorted (by simpa using hlt)
        rw [htsget j hj, htsget (index - 1) (by omega)] at h1
        exact h1
      · exfalso
        have : q < ts.getD j 0 := hspec.2.2 j (by omega) (by omega)
        rw [htsget j hj] at this
        omega
    · rw [hfind, if_pos hpos]
      have hget : (entries.map Prod.snd).get? (index - 1) =
          some (entries.get ⟨index - 1, by omega⟩).2 := by
        rw [List.get?_eq_getElem? , List.getElem?_eq_getElem (by simpa using
          (by omega : index - 1 < entries.length))]
        simp
      rw [hget]
  · rw [hfind]
    by_cases hpos : 0 < index
    · rw [if_pos hpos]
      have hget : (entries.map Prod.snd).get? (index - 1) =
          some (entries.get ⟨index - 1, by omega⟩).2 := by
        rw [List.get?_eq_getElem?, List.getElem?_eq_getElem (by simpa using
          (by omega : index - 1 < entries.length))]
        simp
      rw [hget]
      constructor
      · intro h
        exact absurd h (by simp)
      · intro hall
        exfalso
        have h1 : ts.getD (index - 1) 0 ≤ q := hspec.2.1 _ (by omega)
        rw [htsget (index - 1) (by omega)] at h1
        have h2 := hall _ (entries.get_mem (index - 1) (by omega))
        omega
    · rw [if_neg hpos]
      constructor
      · intro _ p hp
        obtain ⟨j, hj, hjp⟩ := List.getElem_of_mem hp
        have h1 : q < ts.getD j 0 := hspec.2.2 j (by omega) (by omega)
        rw [htsget j (by omega), List.get_eq_getElem, hjp] at h1
        exact h1
      · intro _
        rfl

/-- C1 (code bug): the integration module never imports `bisect`, so the
staged `find_digest` raises `NameError` on every call — it never returns a
digest and never reaches the line-86 `ValueError`; at the Scenario A index
[(100,"a"),(200,"b")] with query 150 it errors instead of returning "a".
With the missing import supplied (the evident intent, and what the spec
describes), the claimed behaviour does hold, concretely at all three
Scenario A queries — and in general by `find_digest_spec`: the greatest
entry ≤ q is returned, with the `ValueError` iff every timestamp exceeds
q. -/
theorem find_digest_namerror_bug :
    (∀ (r : BaseBuilderRepo) (t : Nat),
      r.find_digest_staged t =
        .error "NameError: name 'bisect' is not defined") ∧
    (repoOf [(100, "a"), (200, "b")]).find_digest_staged 150 ≠ .ok "a" ∧
    (∀ (r : BaseBuilderRepo) (t : Nat),
      r.find_digest_staged t ≠ .error noSuitableMsg) ∧
    (repoOf [(100, "a"), (200, "b")]).find_digest 150 = .ok "a" ∧
    (repoOf [(100, "a"), (200, "b")]).find_digest 50 = .error noSuitableMsg ∧
    (repoOf [(100, "a"), (200, "b")]).find_digest 200 = .ok "b" := by
  refine ⟨fun r t => rfl,
    by simp [BaseBuilderRepo.find_digest_staged],
    fun r t => by simp [BaseBuilderRepo.find_digest_staged, noSuitableMsg],
    ?_, ?_, ?_⟩ <;>
    simp [BaseBuilderRepo.find_digest, repoOf, BaseBuilderRepo.add_digest,
      bisectRight, bisectRightAux_pos, bisectRightAux_neg, noSuitableMsg]

/-! ## Pinning resolver and benchmark integrator
`benchmarks/oss_fuzz_benchmark_integration.py`, lines 122–252.  External
collaborators (the git client, the `gcloud` registry client, the filesystem)
are modelled as an oracle environment, and the script's side effects as an
explicit state record. -/

/-- Python ASCII whitespace, as stripped by `str.strip()`. -/
def pyWhitespace (c : Char) : Bool :=
  c = ' ' || c = '\t' || c = '\n' || c = '\r' || c = '\x0b' || c = '\x0c'

/-- `line.strip()`: drop leading and trailing whitespace. -/
def pyStrip (s : String) : String :=
  ⟨((s.data.dropWhile pyWhitespace).reverse.dropWhile pyWhitespace).reverse⟩

/-- `s.startswith(p)`: prefix test on the characters. -/
def pyStartsWith (s p : String) : Bool :=
  p.data.isPrefixOf s.data

/-- The test `line.strip().startswith('FROM')` of
`_replace_base_builder_digest` (line 198). -/
def fromMarker (line : String) : Bool :=
  pyStartsWith (pyStrip line) "FROM"

/-- The replacement line written by `_replace_base_builder_digest`
(line 199), newline included. -/
def pinnedLine (digest : String) : String :=
  "FROM gcr.io/oss-fuzz-base/base-builder@" ++ digest ++ "\n"

/-- `_replace_base_builder_digest` (lines 191–204) on the list of lines read
by `readlines()` (each line keeps its terminator): every line whose stripped
form starts with `FROM` is replaced by the pinned base-builder line, and the
resulting lines are written back joined. -/
def replaceBaseBuilderDigest (lines : List String) (digest : String) :
    List String :=
  lines.map (fun line => if fromMarker line then pinnedLine digest else line)

/-- The external collaborators of one integration run: whether `gcloud` is on
the PATH, the registry listing it would return, the commit hash printed by
`git log --before=<date> -n1 --format=%H <projects_dir>` (`none` for empty
output), and the lines of the benchmark's Dockerfile. -/
structure IntegrationEnv where
  gcloudPresent : Bool
  registryListing : List (Nat × String)
  ossFuzzCommit : Option String
  dockerfile : List String
deriving DecidableEq, Repr

/-- The `oss-fuzz.yaml` record written by `create_oss_fuzz_yaml`
(lines 219–231). -/
structure Manifest where
  project : String
  fuzz_target : String
  commit : String
  commit_date : Nat
  repo_path : String
deriving DecidableEq, Repr

/-- The observable side effects of one integration run. -/
structure IntegrationState where
  warnings : List String
  infos : List String
  checkouts : List String
  resetHardRuns : Nat
  dirCopies : Nat
  dockerfile : List String
  manifest : Option Manifest
deriving DecidableEq, Repr

/-- The state at the start of an integration run: no effects yet, the
Dockerfile as found on disk. -/
def initState (env : IntegrationEnv) : IntegrationState :=
  { warnings := [], infos := [], checkouts := [], resetHardRuns := 0,
    dirCopies := 0, dockerfile := env.dockerfile, manifest := none }

/-- `copy_oss_fuzz_files` (lines 127–152): ask git for the last commit before
the date touching the project subtree; on empty output log a warning and
return `False`; otherwise check the commit out, copy the project directory
into the benchmark directory and return `True`.  The `finally` block always
runs `git reset --hard`. -/
def copy_oss_fuzz_files (env : IntegrationEnv) (s : IntegrationState) :
    Bool × IntegrationState :=
  match env.ossFuzzCommit with
  | none =>
      (false,
        { s with
            warnings :=
              s.warnings ++ ["No suitable earlier OSS-Fuzz commit found."],
            resetHardRuns := s.resetHardRuns + 1 })
  | some commit =>
      (true,
        { s with
            checkouts := s.checkouts ++ [commit],
            dirCopies := s.dirCopies + 1,
            resetHardRuns := s.resetHardRuns + 1 })

/-- `_load_base_builder_repo` (lines 163–188): when `gcloud` is not on the
PATH, log a warning and return `None`.  Otherwise the branch runs the
listing command and then evaluates `json.loads(result)` at line 180 — but
the module never imports `json`, so the gcloud-present branch always raises
`NameError` there, before the `for` loop (whose `repo.add_digest` line 186
is in any case mis-indented out of the loop body) is ever reached. -/
def loadBaseBuilderRepo (env : IntegrationEnv) (s : IntegrationState) :
    Except String (Option BaseBuilderRepo) × IntegrationState :=
  if !env.gcloudPresent then
    (.ok none,
      { s with warnings := s.warnings ++ ["gcloud not found in PATH."] })
  else
    (.error "NameError: name 'json' is not defined", s)

/-- `replace_base_builder` (lines 207–216): load the digest index; when it is
available, look up the digest for the commit date (line 213 — in the staged
module this call raises `NameError`, see `find_digest_staged`; any exception
propagates uncaught) and rewrite the benchmark Dockerfile with it.  The
some-repo branch is unreachable in the staged code, since
`_load_base_builder_repo` returns `None` or raises. -/
def replace_base_builder (env : IntegrationEnv) (commit_date : Nat)
    (s : IntegrationState) : Except String Unit × IntegrationState :=
  match loadBaseBuilderRepo env s with
  | (.error e, s1) => (.error e, s1)
  | (.ok none, s1) => (.ok (), s1)
  | (.ok (some repo), s1) =>
      match repo.find_digest_staged commit_date with
      | .error e => (.error e, s1)
      | .ok digest =>
          (.ok (),
            { s1 with
                infos := s1.infos ++
                  ["Using base-builder with digest " ++ digest ++ "."],
                dockerfile := replaceBaseBuilderDigest s1.dockerfile digest })

/-- `integrate_benchmark` (lines 234–252): run `copy_oss_fuzz_files`
(its boolean result is discarded, line 249), then `replace_base_builder`,
then `create_oss_fuzz_yaml`, which writes the manifest.  An exception raised
by `replace_base_builder` propagates and skips the manifest write. -/
def integrate_benchmark (env : IntegrationEnv)
    (project fuzz_target commit : String) (commit_date : Nat)
    (repo_path : String) : Except String Unit × IntegrationState :=
  let s0 := initState env
  let r1 := copy_oss_fuzz_files env s0
  match replace_base_builder env commit_date r1.2 with
  | (.error e, s2) => (.error e, s2)
  | (.ok _, s2) =>
      (.ok (),
        { s2 with
            manifest :=
              some ⟨project, fuzz_target, commit, commit_date, repo_path⟩ })

/-- C2 counterexample: with no prior commit (empty `git log` output) the
integration still writes the `oss-fuzz.yaml` manifest — `integrate_benchmark`
discards the `False` returned by `copy_oss_fuzz_files` — contradicting the
claim that the integration aborts with no manifest written. -/
theorem noPriorCommit_aborts_cex :
    "No suitable earlier OSS-Fuzz commit found." ∈
      (integrate_benchmark ⟨false, [], none, []⟩ "foo" "fuzz" "c" 100
        "/src/foo").2.warnings ∧
    (integrate_benchmark ⟨false, [], none, []⟩ "foo" "fuzz" "c" 100
      "/src/foo").2.manifest = some ⟨"foo", "fuzz", "c", 100, "/src/foo"⟩ := by
  decide

/-- C2 amended: when the source-control query finds no commit, the
integration logs the warning and performs no checkout or directory copy, but
it does not abort: `replace_base_builder` still runs and, whenever it does
not itself raise, the manifest is still written (in particular it is always
written when `gcloud` is absent). -/
theorem noPriorCommit_warns_but_continues (env : IntegrationEnv)
    (project fuzz_target commit : String) (commit_date : Nat)
    (repo_path : String) :
    "No suitable earlier OSS-Fuzz commit found." ∈
      (integrate_benchmark { env with ossFuzzCommit := none } project
        fuzz_target commit commit_date repo_path).2.warnings ∧
    (integrate_benchmark { env with ossFuzzCommit := none } project
      fuzz_target commit commit_date repo_path).2.dirCopies = 0 ∧
    (integrate_benchmark { env with ossFuzzCommit := none } project
      fuzz_target commit commit_date repo_path).2.checkouts = [] ∧
    (∀ u, (integrate_benchmark { env with ossFuzzCommit := none } project
        fuzz_target commit commit_date repo_path).1 = .ok u →
      (integrate_benchmark { env with ossFuzzCommit := none } project
        fuzz_target commit commit_date repo_path).2.manifest =
        some ⟨project, fuzz_target, commit, commit_date, repo_path⟩) ∧
    (integrate_benchmark
      { env with ossFuzzCommit := none, gcloudPresent := false } project
      fuzz_target commit commit_date repo_path).2.manifest =
      some ⟨project, fuzz_target, commit, commit_date, repo_path⟩ := by
  rcases env with ⟨g, listing, oc, df⟩
  cases g <;>
    simp [integrate_benchmark, copy_oss_fuzz_files, initState,
      replace_base_builder, loadBaseBuilderRepo]

/-- Witness for C2 amended: concrete instantiation, discharging the
hypothesis of the conditional manifest conjunct. -/
theorem noPriorCommit_warns_but_continues_witness :
    (integrate_benchmark { (⟨false, [], some "z", []⟩ : IntegrationEnv) with
        ossFuzzCommit := none } "p" "t" "c" 7 "/src/p").2.manifest =
      some ⟨"p", "t", "c", 7, "/src/p"⟩ :=
  (noPriorCommit_warns_but_continues ⟨false, [], some "z", []⟩ "p" "t" "c" 7
    "/src/p").2.2.2.1 () rfl

/-- C4 counterexample: on a Dockerfile with two `FROM` lines, the second
`FROM` line is rewritten too (every matching line is replaced, not only the
first), contradicting the claim that later marker lines pass through
byte-for-byte. -/
theorem replaceDigest_first_only_cex :
    replaceBaseBuilderDigest ["FROM aaa\n", "RUN x\n", "FROM bbb\n"]
        "sha256:d" =
      ["FROM gcr.io/oss-fuzz-base/base-builder@sha256:d\n", "RUN x\n",
        "FROM gcr.io/oss-fuzz-base/base-builder@sha256:d\n"] ∧
    ("FROM gcr.io/oss-fuzz-base/base-builder@sha256:d\n" : String) ≠
      "FROM bbb\n" := by
  decide

/-- C4 amended: `_replace_base_builder_digest` rewrites every line whose
stripped form starts with the `FROM` marker (not only the first) to the
pinned base-builder line, and preserves every non-matching line
byte-for-byte, line endings included; the number of lines is unchanged. -/
theorem replaceDigest_all_markers (lines : List String) (digest : String) :
    (replaceBaseBuilderDigest lines digest).length = lines.length ∧
    ∀ i : Nat, (replaceBaseBuilderDigest lines digest).getD i "" =
      if fromMarker (lines.getD i "") then pinnedLine digest
      else lines.getD i "" := by
  refine ⟨by simp [replaceBaseBuilderDigest], ?_⟩
  intro i
  by_cases h : i < lines.length
  · rw [List.getD_eq_getElem _ _
      (by simpa [replaceBaseBuilderDigest] using h),
      List.getD_eq_getElem _ _ h]
    simp [replaceBaseBuilderDigest]
  · have h1 : lines.length ≤ i := le_of_not_lt h
    rw [List.getD_eq_default _ _ (by simpa [replaceBaseBuilderDigest]),
      List.getD_eq_default _ _ h1]
    have h2 : fromMarker "" = false := by decide
    rw [h2]
    simp

/-- C9: when `gcloud` is absent from the PATH, the pinning step is skipped
entirely: a warning is logged, the Dockerfile is left unmodified, the
integration finishes without error, and the manifest is still written. -/
theorem gcloud_absent_skips_pinning (env : IntegrationEnv)
    (project fuzz_target commit : String) (commit_date : Nat)
    (repo_path : String) :
    (integrate_benchmark { env with gcloudPresent := false } project
      fuzz_target commit commit_date repo_path).1 = .ok () ∧
    "gcloud not found in PATH." ∈
      (integrate_benchmark { env with gcloudPresent := false } project
        fuzz_target commit commit_date repo_path).2.warnings ∧
    (integrate_benchmark { env with gcloudPresent := false } project
      fuzz_target commit commit_date repo_path).2.dockerfile =
      env.dockerfile ∧
    (integrate_benchmark { env with gcloudPresent := false } project
      fuzz_target commit commit_date repo_path).2.manifest =
      some ⟨project, fuzz_target, commit, commit_date, repo_path⟩ := by
  rcases env with ⟨g, listing, oc, df⟩
  cases oc <;>
    simp [integrate_benchmark, copy_oss_fuzz_files, initState,
      replace_base_builder, loadBaseBuilderRepo]

/-! ## Makefile rule generator
`docker/generate_makefile.py`.  The generator prints make rules from string
templates; rules guarded by `ifeq (,$(filter {fuzzer},coverage
coverage_source_based))` conditionals are resolved here at generation time
(the condition depends only on the fuzzer name, which is fixed when the text
is emitted), so the embedding produces the effective rule stream that make
sees.  Each rule record carries the target name, the dependency list after
the colon, the template block it came from, the rendered
`fuzzer_variant_env` slot, and the runner image named in its `docker run`
command (empty for rules without one). -/

def BASE_TAG : String := "gcr.io/fuzzbench"

/-- Characters that `shlex.quote` leaves unquoted: ASCII word characters
plus `@ % + = : , .`, the slash and the hyphen (the complement of the
`_find_unsafe` ASCII regex). -/
def shlexSafeChar (c : Char) : Bool :=
  c.isAlphanum || c = '_' || c = '@' || c = '%' || c = '+' || c = '=' ||
    c = ':' || c = ',' || c = '.' || c = '/' || c = '-'

/-- Python's `shlex.quote`: `''` for the empty string, the string itself when
all characters are safe, otherwise the string wrapped in single quotes with
each embedded single quote replaced by `'"'"'`. -/
def shlexQuote (s : String) : String :=
  if s = "" then "\x27\x27"
  else if s.data.all shlexSafeChar then s
  else
    "\x27" ++
      ⟨s.data.flatMap fun c =>
        if c = '\x27' then "\x27\"\x27\"\x27".data else [c]⟩ ++
      "\x27"

/-- One entry of a fuzzer's `variants.yaml`: the variant name and its
environment-variable overrides in file order (values already rendered by
Python's `str`). -/
structure FuzzerVariant where
  name : String
  env : List (String × String)
deriving DecidableEq, Repr

/-- The `fuzzer_variant_env` string of `generate_fuzzer` (lines 249–252):
`' '.join('-e {k}={v}'.format(k=k, v=shlex.quote(str(v))) ...)`. -/
def renderVariantEnv (env : List (String × String)) : String :=
  String.intercalate " "
    (env.map fun kv => "-e " ++ kv.1 ++ "=" ++ shlexQuote kv.2)

/-- Template block a generated rule comes from. -/
inductive RKind where
  | fuzzerBuilder | pullFuzzerBuilder
  | benchBuilder | pullBenchBuilder
  | interRunner | pullInterRunner
  | benchRunner | pullBenchRunner
  | buildAlias | pullAlias | runTgt | testRunTgt | debugTgt
  | ossBuilderInter | pullOssBuilderInter
  | ossBuilder | pullOssBuilder
  | ossInterRunner | pullOssInterRunner
  | ossRunner | pullOssRunner
  | buildAllTgt | pullAllTgt | topBuildAll | topPullAll
deriving DecidableEq, Repr

/-- One generated make rule: target name, dependency names after the colon,
originating template block, the rendered `fuzzer_variant_env` slot of its
recipe, and the runner image its `docker run` command references. -/
structure Rule where
  name : String
  deps : List String
  kind : RKind
  envInj : String
  runImage : String
deriving DecidableEq, Repr

/-- Whether a fuzzer name satisfies the make conditional
`ifeq (,$(filter {fuzzer},coverage coverage_source_based))` negatively,
i.e. is a coverage-only fuzzer. -/
def coverageOnly (f : String) : Bool :=
  f = "coverage" || f = "coverage_source_based"

def dotBuilderName (f : String) : String := "." ++ f ++ "-builder"

def dotPullBuilderName (f : String) : String := ".pull-" ++ f ++ "-builder"

def dotBenchBuilderName (f b : String) : String :=
  "." ++ f ++ "-" ++ b ++ "-builder"

def dotPullBenchBuilderName (f b : String) : String :=
  ".pull-" ++ f ++ "-" ++ b ++ "-builder"

def dotInterRunnerName (f b : String) : String :=
  "." ++ f ++ "-" ++ b ++ "-intermediate-runner"

def dotPullInterRunnerName (f b : String) : String :=
  ".pull-" ++ f ++ "-" ++ b ++ "-intermediate-runner"

def dotRunnerName (f b : String) : String := "." ++ f ++ "-" ++ b ++ "-runner"

def dotPullRunnerName (f b : String) : String :=
  ".pull-" ++ f ++ "-" ++ b ++ "-runner"

def dotOssBuilderInterName (f b : String) : String :=
  "." ++ f ++ "-" ++ b ++ "-oss-fuzz-builder-intermediate"

def dotPullOssBuilderInterName (f b : String) : String :=
  ".pull-" ++ f ++ "-" ++ b ++ "-oss-fuzz-builder-intermediate"

def dotOssBuilderName (f b : String) : String :=
  "." ++ f ++ "-" ++ b ++ "-oss-fuzz-builder"

def dotPullOssBuilderName (f b : String) : String :=
  ".pull-" ++ f ++ "-" ++ b ++ "-oss-fuzz-builder"

def dotOssInterRunnerName (f b : String) : String :=
  "." ++ f ++ "-" ++ b ++ "-oss-fuzz-intermediate-runner"

def dotPullOssInterRunnerName (f b : String) : String :=
  ".pull-" ++ f ++ "-" ++ b ++ "-oss-fuzz-intermediate-runner"

def dotOssRunnerName (f b : String) : String :=
  "." ++ f ++ "-" ++ b ++ "-oss-fuzz-runner"

def dotPullOssRunnerName (f b : String) : String :=
  ".pull-" ++ f ++ "-" ++ b ++ "-oss-fuzz-runner"

def buildTargetName (n b : String) : String := "build-" ++ n ++ "-" ++ b

def pullTargetName (n b : String) : String := "pull-" ++ n ++ "-" ++ b

def runTargetName (n b : String) : String := "run-" ++ n ++ "-" ++ b

def testRunTargetName (n b : String) : String :=
  "test-run-" ++ n ++ "-" ++ b

def debugTargetName (n b : String) : String := "debug-" ++ n ++ "-" ++ b

def buildAllName (n : String) : String := "build-" ++ n ++ "-all"

def pullAllName (n : String) : String := "pull-" ++ n ++ "-all"

/-- The runner image `{base_tag}/runners/{fuzzer}/{benchmark}` named in the
`docker run` commands of the run/test-run/debug templates. -/
def runnerImage (f b : String) : String :=
  BASE_TAG ++ "/runners/" ++ f ++ "/" ++ b

/-- `FUZZER_TEMPLATE` (lines 29–39): the fuzzer's own builder and
pull-builder rules, depending on the externally defined `base-builder` and
`pull-base-builder` targets. -/
def fuzzerRules (f : String) : List Rule :=
  [⟨dotBuilderName f, ["base-builder"], .fuzzerBuilder, "", ""⟩,
   ⟨dotPullBuilderName f, ["pull-base-builder"], .pullFuzzerBuilder, "", ""⟩]

/-- `FUZZER_BENCHMARK_RUN_TARGETS_TEMPLATE` (lines 41–83): build/pull
aliases and run/test-run/debug rules of a standard benchmark, with the
`fuzzer_variant_env` slot injected into the three `docker run` recipes. -/
def runTargetRules (f n envInj b : String) : List Rule :=
  [⟨buildTargetName n b, [dotRunnerName f b], .buildAlias, "", ""⟩,
   ⟨pullTargetName n b, [dotPullRunnerName f b], .pullAlias, "", ""⟩,
   ⟨runTargetName n b, [dotRunnerName f b], .runTgt, envInj, runnerImage f b⟩,
   ⟨testRunTargetName n b, [dotRunnerName f b], .testRunTgt, envInj,
     runnerImage f b⟩,
   ⟨debugTargetName n b, [dotRunnerName f b], .debugTgt, envInj,
     runnerImage f b⟩]

/-- `FUZZER_BENCHMARK_TEMPLATE` (lines 85–130): builder and pull-builder for
the fuzzer/benchmark pair, then — resolved from the coverage conditional —
either the runner chain plus the run targets, or (for coverage-only fuzzers)
plain build/pull aliases to the builders. -/
def benchRules (f n envInj b : String) : List Rule :=
  [⟨dotBenchBuilderName f b, [dotBuilderName f], .benchBuilder, "", ""⟩,
   ⟨dotPullBenchBuilderName f b, [dotPullBuilderName f], .pullBenchBuilder,
     "", ""⟩] ++
  (if coverageOnly f then
    [⟨buildTargetName f b, [dotBenchBuilderName f b], .buildAlias, "", ""⟩,
     ⟨pullTargetName f b, [dotPullBenchBuilderName f b], .pullAlias, "", ""⟩]
  else
    [⟨dotInterRunnerName f b, ["base-runner"], .interRunner, "", ""⟩,
     ⟨dotPullInterRunnerName f b, ["pull-base-runner"], .pullInterRunner,
       "", ""⟩,
     ⟨dotRunnerName f b, [dotBenchBuilderName f b, dotInterRunnerName f b],
       .benchRunner, "", ""⟩,
     ⟨dotPullRunnerName f b,
       [dotPullBenchBuilderName f b, dotPullInterRunnerName f b],
       .pullBenchRunner, "", ""⟩] ++
    runTargetRules f n envInj b)

/-- `OSS_FUZZER_BENCHMARK_RUN_TARGETS_TEMPLATE` (lines 132–180). -/
def ossRunTargetRules (f n envInj b : String) : List Rule :=
  [⟨buildTargetName n b, [dotOssRunnerName f b], .buildAlias, "", ""⟩,
   ⟨pullTargetName n b, [dotPullOssRunnerName f b], .pullAlias, "", ""⟩,
   ⟨runTargetName n b, [dotOssRunnerName f b], .runTgt, envInj,
     runnerImage f b⟩,
   ⟨testRunTargetName n b, [dotOssRunnerName f b], .testRunTgt, envInj,
     runnerImage f b⟩,
   ⟨debugTargetName n b, [dotOssRunnerName f b], .debugTgt, envInj,
     runnerImage f b⟩]

/-- `OSS_FUZZER_BENCHMARK_TEMPLATE` (lines 182–239): the two-stage oss-fuzz
builder chain, then — resolved from the coverage conditional — either the
runner chain plus run targets or plain build/pull aliases. -/
def ossBenchRules (f n envInj b : String) : List Rule :=
  [⟨dotOssBuilderInterName f b, [], .ossBuilderInter, "", ""⟩,
   ⟨dotPullOssBuilderInterName f b, [], .pullOssBuilderInter, "", ""⟩,
   ⟨dotOssBuilderName f b, [dotOssBuilderInterName f b], .ossBuilder,
     "", ""⟩,
   ⟨dotPullOssBuilderName f b, [dotPullOssBuilderInterName f b],
     .pullOssBuilder, "", ""⟩] ++
  (if coverageOnly f then
    [⟨buildTargetName f b, [dotOssBuilderName f b], .buildAlias, "", ""⟩,
     ⟨pullTargetName f b, [dotPullOssBuilderName f b], .pullAlias, "", ""⟩]
  else
    [⟨dotOssInterRunnerName f b, ["base-runner"], .ossInterRunner, "", ""⟩,
     ⟨dotPullOssInterRunnerName f b, ["pull-base-runner"],
       .pullOssInterRunner, "", ""⟩,
     ⟨dotOssRunnerName f b, [dotOssBuilderName f b, dotOssInterRunnerName f b],
       .ossRunner, "", ""⟩,
     ⟨dotPullOssRunnerName f b,
       [dotPullOssBuilderName f b, dotPullOssInterRunnerName f b],
       .pullOssRunner, "", ""⟩] ++
    ossRunTargetRules f n envInj b)

/-- The closing `build-{name}-all` / `pull-{name}-all` umbrella rules of
`generate_fuzzer` (lines 296–309): their dependency lists are the
per-benchmark build/pull target names over
`all_benchmarks = benchmarks + oss_fuzz_benchmarks`, in that order. -/
def umbrellaRules (n : String) (benchmarks oss_fuzz_benchmarks : List String) :
    List Rule :=
  [⟨buildAllName n,
     (benchmarks ++ oss_fuzz_benchmarks).map (buildTargetName n),
     .buildAllTgt, "", ""⟩,
   ⟨pullAllName n,
     (benchmarks ++ oss_fuzz_benchmarks).map (pullTargetName n),
     .pullAllTgt, "", ""⟩]

/-- `generate_fuzzer` (lines 242–309): with a variant, emit only the
run-target templates per benchmark under the variant's name with its env
injection; without, emit the fuzzer's builder rules and the full
per-benchmark templates.  In both cases finish with the umbrella rules under
the variant name respectively the fuzzer name. -/
def generate_fuzzer (f : String) (benchmarks oss_fuzz_benchmarks : List String)
    (fuzzer_variant : Option FuzzerVariant) : List Rule :=
  match fuzzer_variant with
  | some v =>
    (benchmarks.flatMap (runTargetRules f v.name (renderVariantEnv v.env)) ++
      oss_fuzz_benchmarks.flatMap
        (ossRunTargetRules f v.name (renderVariantEnv v.env))) ++
      umbrellaRules v.name benchmarks oss_fuzz_benchmarks
  | none =>
    (fuzzerRules f ++ benchmarks.flatMap (benchRules f f "") ++
      oss_fuzz_benchmarks.flatMap (ossBenchRules f f "")) ++
      umbrellaRules f benchmarks oss_fuzz_benchmarks

/-- One scanned fuzzer directory: its name and the variants of its
`variants.yaml` (empty when the file does not exist). -/
structure Fuzzer where
  name : String
  variants : List FuzzerVariant
deriving DecidableEq, Repr

/-- The scanned input of one generation run of `main` (lines 312–366): the
fuzzer directories in scan order with their variants, and the benchmark
directories holding a `build.sh` respectively an `oss-fuzz.yaml`, in scan
order.  A benchmark directory holding both marker files appears in both
lists. -/
structure Scan where
  fuzzers : List Fuzzer
  benchmarks : List String
  ossFuzzBenchmarks : List String
deriving DecidableEq, Repr

/-- The `fuzzers_and_variants` accumulator of `main`: each fuzzer followed by
its variants, in scan order. -/
def fuzzersAndVariants (fs : List Fuzzer) : List String :=
  fs.flatMap fun f => f.name :: f.variants.map (·.name)

/-- `main` (lines 312–366): per fuzzer, the default rules then each
variant's rules; finally the top-level `build-all` / `pull-all` rules over
every fuzzer and variant umbrella. -/
def generate_all (s : Scan) : List Rule :=
  (s.fuzzers.flatMap fun f =>
    generate_fuzzer f.name s.benchmarks s.ossFuzzBenchmarks none ++
      f.variants.flatMap fun v =>
        generate_fuzzer f.name s.benchmarks s.ossFuzzBenchmarks (some v)) ++
  [⟨"build-all", (fuzzersAndVariants s.fuzzers).map buildAllName,
     .topBuildAll, "", ""⟩,
   ⟨"pull-all", (fuzzersAndVariants s.fuzzers).map pullAllName,
     .topPullAll, "", ""⟩]

lemma mem_genFuzzer_bench (f : String) (bs obs : List String) (b : String)
    (hb : b ∈ bs) (r : Rule) (hr : r ∈ benchRules f f "" b) :
    r ∈ generate_fuzzer f bs obs none := by
  simp only [generate_fuzzer, List.mem_append, List.mem_flatMap]
  exact Or.inl (Or.inl (Or.inr ⟨b, hb, hr⟩))

lemma mem_genFuzzer_oss (f : String) (bs obs : List String) (b : String)
    (hb : b ∈ obs) (r : Rule) (hr : r ∈ ossBenchRules f f "" b) :
    r ∈ generate_fuzzer f bs obs none := by
  simp only [generate_fuzzer, List.mem_append, List.mem_flatMap]
  exact Or.inl (Or.inr ⟨b, hb, hr⟩)

lemma benchRules_kinds_cov (f n e b : String)
    (hcov : coverageOnly f = true) :
    ∀ r ∈ benchRules f n e b, r.kind ≠ RKind.runTgt ∧
      r.kind ≠ RKind.testRunTgt ∧ r.kind ≠ RKind.debugTgt := by
  intro r hr
  simp [benchRules, hcov] at hr
  rcases hr with rfl | rfl | rfl | rfl <;> simp

lemma ossBenchRules_kinds_cov (f n e b : String)
    (hcov : coverageOnly f = true) :
    ∀ r ∈ ossBenchRules f n e b, r.kind ≠ RKind.runTgt ∧
      r.kind ≠ RKind.testRunTgt ∧ r.kind ≠ RKind.debugTgt := by
  intro r hr
  simp [ossBenchRules, hcov] at hr
  rcases hr with rfl | rfl | rfl | rfl | rfl | rfl <;> simp

/-- C3 counterexample: a variant declared by the coverage-only fuzzer
`coverage` does get a generated `run-` target (the variant path of
`generate_fuzzer` prints the run-target template unconditionally, outside the
coverage conditional), contradicting the claim that the exclusion holds for
every variant a coverage-only fuzzer declares. -/
theorem coverage_variant_run_cex :
    coverageOnly "coverage" = true ∧
    ∃ r ∈ generate_fuzzer "coverage" ["x"] [] (some ⟨"cov_v", []⟩),
      r.kind = RKind.runTgt ∧ r.name = "run-cov_v-x" := by
  decide

/-- C3 amended: for a coverage-only fuzzer, the fuzzer's own (non-variant)
generated rules contain no run, test-run, or debug targets for any benchmark
(standard or externally-derived), and every benchmark still gets build and
pull targets; variants of a coverage-only fuzzer, however, do emit
run/test-run/debug targets. -/
theorem coverage_only_excludes_run (f : String) (bs obs : List String)
    (hcov : coverageOnly f = true) :
    (∀ r ∈ generate_fuzzer f bs obs none,
      r.kind ≠ RKind.runTgt ∧ r.kind ≠ RKind.testRunTgt ∧
        r.kind ≠ RKind.debugTgt) ∧
    (∀ b ∈ bs ++ obs,
      (∃ r ∈ generate_fuzzer f bs obs none, r.name = buildTargetName f b ∧
        (r.kind = RKind.buildAlias ∨ r.kind = RKind.buildAllTgt)) ∧
      (∃ r ∈ generate_fuzzer f bs obs none, r.name = pullTargetName f b ∧
        (r.kind = RKind.pullAlias ∨ r.kind = RKind.pullAllTgt))) := by
  constructor
  · intro r hr
    simp only [generate_fuzzer, List.mem_append, List.mem_flatMap] at hr
    rcases hr with (((hr | ⟨b, hb, hr⟩) | ⟨b, hb, hr⟩) | hr)
    · simp [fuzzerRules] at hr
      rcases hr with rfl | rfl <;> simp
    · exact benchRules_kinds_cov f f "" b hcov r hr
    · exact ossBenchRules_kinds_cov f f "" b hcov r hr
    · simp [umbrellaRules] at hr
      rcases hr with rfl | rfl <;> simp
  · intro b hb
    rw [List.mem_append] at hb
    constructor
    · rcases hb with hb | hb
      · refine ⟨⟨buildTargetName f b, [dotBenchBuilderName f b],
          .buildAlias, "", ""⟩,
          mem_genFuzzer_bench f bs obs b hb _ (by simp [benchRules, hcov]),
          rfl, Or.inl rfl⟩
      · refine ⟨⟨buildTargetName f b, [dotOssBuilderName f b],
          .buildAlias, "", ""⟩,
          mem_genFuzzer_oss f bs obs b hb _ (by simp [ossBenchRules, hcov]),
          rfl, Or.inl rfl⟩
    · rcases hb with hb | hb
      · refine ⟨⟨pullTargetName f b, [dotPullBenchBuilderName f b],
          .pullAlias, "", ""⟩,
          mem_genFuzzer_bench f bs obs b hb _ (by simp [benchRules, hcov]),
          rfl, Or.inl rfl⟩
      · refine ⟨⟨pullTargetName f b, [dotPullOssBuilderName f b],
          .pullAlias, "", ""⟩,
          mem_genFuzzer_oss f bs obs b hb _ (by simp [ossBenchRules, hcov]),
          rfl, Or.inl rfl⟩

/-- Witness for C3 amended: the coverage fuzzer itself with one standard and
one externally-derived benchmark, evaluated at its build alias rule. -/
theorem coverage_only_excludes_run_witness :
    (⟨buildTargetName "coverage" "x", [dotBenchBuilderName "coverage" "x"],
        RKind.buildAlias, "", ""⟩ : Rule).kind ≠ RKind.runTgt ∧
    (⟨buildTargetName "coverage" "x", [dotBenchBuilderName "coverage" "x"],
        RKind.buildAlias, "", ""⟩ : Rule).kind ≠ RKind.testRunTgt ∧
    (⟨buildTargetName "coverage" "x", [dotBenchBuilderName "coverage" "x"],
        RKind.buildAlias, "", ""⟩ : Rule).kind ≠ RKind.debugTgt :=
  (coverage_only_excludes_run "coverage" ["x"] ["y"] (by decide)).1
    _ (by decide)

/-- C7: the generator is a pure function of its scanned input — two runs
over equal scans produce identical rule streams. -/
theorem generator_deterministic (s1 s2 : Scan) (h : s1 = s2) :
    generate_all s1 = generate_all s2 := by
  rw [h]

/-- Witness for C7: the two runs at a concrete scan. -/
theorem generator_deterministic_witness :
    generate_all ⟨[⟨"afl", []⟩], ["libxml_parse"], []⟩ =
      generate_all ⟨[⟨"afl", []⟩], ["libxml_parse"], []⟩ :=
  generator_deterministic _ _ rfl

/-- `fuzzer_variant_name` (lines 248 and 273): the variant's name when a
variant is being generated, else the fuzzer's own name. -/
def fuzzerVariantName (f : String) (var : Option FuzzerVariant) : String :=
  match var with
  | some v => v.name
  | none => f

lemma runTargetRules_facts (f n e b : String) :
    ∀ r ∈ runTargetRules f n e b,
      (r.kind = RKind.buildAlias ∨ r.kind = RKind.pullAlias ∨
        r.kind = RKind.runTgt ∨ r.kind = RKind.testRunTgt ∨
        r.kind = RKind.debugTgt) ∧
      ((r.kind = RKind.runTgt ∨ r.kind = RKind.testRunTgt ∨
        r.kind = RKind.debugTgt) →
        r.envInj = e ∧ r.runImage = runnerImage f b) := by
  intro r hr
  simp [runTargetRules] at hr
  rcases hr with rfl | rfl | rfl | rfl | rfl <;> simp

lemma ossRunTargetRules_facts (f n e b : String) :
    ∀ r ∈ ossRunTargetRules f n e b,
      (r.kind = RKind.buildAlias ∨ r.kind = RKind.pullAlias ∨
        r.kind = RKind.runTgt ∨ r.kind = RKind.testRunTgt ∨
        r.kind = RKind.debugTgt) ∧
      ((r.kind = RKind.runTgt ∨ r.kind = RKind.testRunTgt ∨
        r.kind = RKind.debugTgt) →
        r.envInj = e ∧ r.runImage = runnerImage f b) := by
  intro r hr
  simp [ossRunTargetRules] at hr
  rcases hr with rfl | rfl | rfl | rfl | rfl <;> simp

lemma benchRules_run_envInj (f e b : String) :
    ∀ r ∈ benchRules f f e b,
      (r.kind = RKind.runTgt ∨ r.kind = RKind.testRunTgt ∨
        r.kind = RKind.debugTgt) → r.envInj = e := by
  intro r hr
  by_cases hcov : coverageOnly f
  · simp [benchRules, hcov] at hr
    rcases hr with rfl | rfl | rfl | rfl <;> simp
  · simp [benchRules, runTargetRules, hcov] at hr
    rcases hr with rfl | rfl | rfl | rfl | rfl | rfl | rfl | rfl | rfl |
      rfl | rfl <;> simp

lemma ossBenchRules_run_envInj (f e b : String) :
    ∀ r ∈ ossBenchRules f f e b,
      (r.kind = RKind.runTgt ∨ r.kind = RKind.testRunTgt ∨
        r.kind = RKind.debugTgt) → r.envInj = e := by
  intro r hr
  by_cases hcov : coverageOnly f
  · simp [ossBenchRules, hcov] at hr
    rcases hr with rfl | rfl | rfl | rfl | rfl | rfl <;> simp
  · simp [ossBenchRules, ossRunTargetRules, hcov] at hr
    rcases hr with rfl | rfl | rfl | rfl | rfl | rfl | rfl | rfl | rfl |
      rfl | rfl | rfl | rfl <;> simp

/-- C10: a variant's generated rules are only build/pull aliases,
run/test-run/debug targets and the umbrella pair (no builder or runner rules
of their own); each of its run/test-run/debug rules injects exactly the
variant's environment overrides, each rendered `-e KEY=VALUE` with the value
shell-quoted and space-joined, and runs the parent fuzzer's runner image;
and the parent fuzzer's own run/test-run/debug rules have an empty
environment injection. -/
theorem variant_env_isolation (f : String) (bs obs : List String)
    (v : FuzzerVariant) :
    (∀ r ∈ generate_fuzzer f bs obs (some v),
      r.kind = RKind.buildAlias ∨ r.kind = RKind.pullAlias ∨
      r.kind = RKind.runTgt ∨ r.kind = RKind.testRunTgt ∨
      r.kind = RKind.debugTgt ∨ r.kind = RKind.buildAllTgt ∨
      r.kind = RKind.pullAllTgt) ∧
    (∀ r ∈ generate_fuzzer f bs obs (some v),
      (r.kind = RKind.runTgt ∨ r.kind = RKind.testRunTgt ∨
        r.kind = RKind.debugTgt) →
      r.envInj = String.intercalate " "
        (v.env.map fun kv => "-e " ++ kv.1 ++ "=" ++ shlexQuote kv.2) ∧
      ∃ b ∈ bs ++ obs,
        r.runImage = BASE_TAG ++ "/runners/" ++ f ++ "/" ++ b) ∧
    (∀ r ∈ generate_fuzzer f bs obs none,
      (r.kind = RKind.runTgt ∨ r.kind = RKind.testRunTgt ∨
        r.kind = RKind.debugTgt) → r.envInj = "") := by
  refine ⟨?_, ?_, ?_⟩
  · intro r hr
    simp only [generate_fuzzer, List.mem_append, List.mem_flatMap] at hr
    rcases hr with ((⟨b, hb, hr⟩ | ⟨b, hb, hr⟩) | hr)
    · have := (runTargetRules_facts f v.name (renderVariantEnv v.env) b r
        hr).1
      tauto
    · have := (ossRunTargetRules_facts f v.name (renderVariantEnv v.env) b r
        hr).1
      tauto
    · simp [umbrellaRules] at hr
      rcases hr with rfl | rfl <;> simp
  · intro r hr hk
    simp only [generate_fuzzer, List.mem_append, List.mem_flatMap] at hr
    rcases hr with ((⟨b, hb, hr⟩ | ⟨b, hb, hr⟩) | hr)
    · have h2 := (runTargetRules_facts f v.name (renderVariantEnv v.env) b r
        hr).2 hk
      exact ⟨by rw [h2.1]; rfl,
        ⟨b, List.mem_append_left _ hb, by rw [h2.2]; rfl⟩⟩
    · have h2 := (ossRunTargetRules_facts f v.name (renderVariantEnv v.env) b
        r hr).2 hk
      exact ⟨by rw [h2.1]; rfl,
        ⟨b, List.mem_append_right _ hb, by rw [h2.2]; rfl⟩⟩
    · simp [umbrellaRules] at hr
      rcases hr with rfl | rfl <;> simp at hk
  · intro r hr hk
    simp only [generate_fuzzer, List.mem_append, List.mem_flatMap] at hr
    rcases hr with (((hr | ⟨b, hb, hr⟩) | ⟨b, hb, hr⟩) | hr)
    · simp [fuzzerRules] at hr
      rcases hr with rfl | rfl <;> simp at hk
    · exact benchRules_run_envInj f "" b r hr hk
    · exact ossBenchRules_run_envInj f "" b r hr hk
    · simp [umbrellaRules] at hr
      rcases hr with rfl | rfl <;> simp at hk

/-- Witness for C10: a concrete variant run target carries the variant's
rendered env injection over the parent's runner image. -/
theorem variant_env_isolation_witness :
    (⟨runTargetName "v1" "x", [dotRunnerName "afl" "x"], RKind.runTgt,
        renderVariantEnv [("A", "b c")], runnerImage "afl" "x"⟩ : Rule).envInj
        = String.intercalate " "
          ([("A", "b c")].map fun kv =>
            "-e " ++ kv.1 ++ "=" ++ shlexQuote kv.2) ∧
    ∃ b ∈ ["x"] ++ ([] : List String),
      (⟨runTargetName "v1" "x", [dotRunnerName "afl" "x"], RKind.runTgt,
        renderVariantEnv [("A", "b c")], runnerImage "afl" "x"⟩ :
          Rule).runImage = BASE_TAG ++ "/runners/" ++ "afl" ++ "/" ++ b :=
  (variant_env_isolation "afl" ["x"] [] ⟨"v1", [("A", "b c")]⟩).2.1
    _ (by decide) (Or.inl rfl)

lemma filter_flatMap (l : List α) (g : α → List β) (p : β → Bool) :
    (l.flatMap g).filter p = l.flatMap fun a => (g a).filter p := by
  induction l with
  | nil => rfl
  | cons a l ih => simp [List.flatMap_cons, List.filter_append, ih]

lemma flatMap_singleton_eq_map (l : List α) (h : α → β) :
    (l.flatMap fun a => [h a]) = l.map h := by
  induction l with
  | nil => rfl
  | cons a l ih => simp [List.flatMap_cons, ih]

lemma filter_build_benchRules (f e b : String) :
    ((benchRules f f e b).filter fun r => r.kind == RKind.buildAlias) =
      [⟨buildTargetName f b,
        if coverageOnly f then [dotBenchBuilderName f b]
        else [dotRunnerName f b], .buildAlias, "", ""⟩] := by
  by_cases hcov : coverageOnly f <;>
    simp [benchRules, runTargetRules, hcov]

lemma filter_pull_benchRules (f e b : String) :
    ((benchRules f f e b).filter fun r => r.kind == RKind.pullAlias) =
      [⟨pullTargetName f b,
        if coverageOnly f then [dotPullBenchBuilderName f b]
        else [dotPullRunnerName f b], .pullAlias, "", ""⟩] := by
  by_cases hcov : coverageOnly f <;>
    simp [benchRules, runTargetRules, hcov]

lemma filter_build_ossBenchRules (f e b : String) :
    ((ossBenchRules f f e b).filter fun r => r.kind == RKind.buildAlias) =
      [⟨buildTargetName f b,
        if coverageOnly f then [dotOssBuilderName f b]
        else [dotOssRunnerName f b], .buildAlias, "", ""⟩] := by
  by_cases hcov : coverageOnly f <;>
    simp [ossBenchRules, ossRunTargetRules, hcov]

lemma filter_pull_ossBenchRules (f e b : String) :
    ((ossBenchRules f f e b).filter fun r => r.kind == RKind.pullAlias) =
      [⟨pullTargetName f b,
        if coverageOnly f then [dotPullOssBuilderName f b]
        else [dotPullOssRunnerName f b], .pullAlias, "", ""⟩] := by
  by_cases hcov : coverageOnly f <;>
    simp [ossBenchRules, ossRunTargetRules, hcov]

lemma filter_build_runTargetRules (f n e b : String) :
    ((runTargetRules f n e b).filter fun r => r.kind == RKind.buildAlias) =
      [⟨buildTargetName n b, [dotRunnerName f b], .buildAlias, "", ""⟩] := by
  simp [runTargetRules]

lemma filter_pull_runTargetRules (f n e b : String) :
    ((runTargetRules f n e b).filter fun r => r.kind == RKind.pullAlias) =
      [⟨pullTargetName n b, [dotPullRunnerName f b], .pullAlias, "", ""⟩] := by
  simp [runTargetRules]

lemma filter_build_ossRunTargetRules (f n e b : String) :
    ((ossRunTargetRules f n e b).filter fun r =>
        r.kind == RKind.buildAlias) =
      [⟨buildTargetName n b, [dotOssRunnerName f b], .buildAlias, "", ""⟩] := by
  simp [ossRunTargetRules]

lemma filter_pull_ossRunTargetRules (f n e b : String) :
    ((ossRunTargetRules f n e b).filter fun r =>
        r.kind == RKind.pullAlias) =
      [⟨pullTargetName n b, [dotPullOssRunnerName f b], .pullAlias, "",
        ""⟩] := by
  simp [ossRunTargetRules]

/-- C6: each `generate_fuzzer` output ends with one `build-N-all` rule whose
dependency list is exactly the names of the per-benchmark build targets just
emitted, in emission order, and one `pull-N-all` rule likewise over the pull
targets; concretely, for one fuzzer `afl` with no variants and one standard
benchmark `libxml_parse`, the output contains `build-afl-libxml_parse`,
`pull-afl-libxml_parse`, `run-afl-libxml_parse`, and `build-afl-all`
depending on `build-afl-libxml_parse`. -/
theorem umbrella_rules_exact (f : String) (bs obs : List String)
    (var : Option FuzzerVariant) :
    (∃ pre : List Rule,
      generate_fuzzer f bs obs var =
        pre ++
          [⟨buildAllName (fuzzerVariantName f var),
             (bs ++ obs).map (buildTargetName (fuzzerVariantName f var)),
             .buildAllTgt, "", ""⟩,
           ⟨pullAllName (fuzzerVariantName f var),
             (bs ++ obs).map (pullTargetName (fuzzerVariantName f var)),
             .pullAllTgt, "", ""⟩] ∧
      ((pre.filter fun r => r.kind == RKind.buildAlias).map Rule.name) =
        (bs ++ obs).map (buildTargetName (fuzzerVariantName f var)) ∧
      ((pre.filter fun r => r.kind == RKind.pullAlias).map Rule.name) =
        (bs ++ obs).map (pullTargetName (fuzzerVariantName f var))) ∧
    (∃ r ∈ generate_fuzzer "afl" ["libxml_parse"] [] none,
      r.name = "build-afl-libxml_parse") ∧
    (∃ r ∈ generate_fuzzer "afl" ["libxml_parse"] [] none,
      r.name = "pull-afl-libxml_parse") ∧
    (∃ r ∈ generate_fuzzer "afl" ["libxml_parse"] [] none,
      r.name = "run-afl-libxml_parse") ∧
    (∃ r ∈ generate_fuzzer "afl" ["libxml_parse"] [] none,
      r.name = "build-afl-all" ∧ r.deps = ["build-afl-libxml_parse"]) := by
  refine ⟨?_, by decide, by decide, by decide, by decide⟩
  cases var with
  | none =>
    refine ⟨fuzzerRules f ++ bs.flatMap (benchRules f f "") ++
      obs.flatMap (ossBenchRules f f ""), rfl, ?_, ?_⟩
    · rw [List.filter_append, List.filter_append, filter_flatMap,
        filter_flatMap]
      simp only [filter_build_benchRules, filter_build_ossBenchRules,
        flatMap_singleton_eq_map, fuzzerRules]
      simp [fuzzerVariantName, List.map_append, List.map_map,
        Function.comp_def]
    · rw [List.filter_append, List.filter_append, filter_flatMap,
        filter_flatMap]
      simp only [filter_pull_benchRules, filter_pull_ossBenchRules,
        flatMap_singleton_eq_map, fuzzerRules]
      simp [fuzzerVariantName, List.map_append, List.map_map,
        Function.comp_def]
  | some v =>
    refine ⟨bs.flatMap (runTargetRules f v.name (renderVariantEnv v.env)) ++
      obs.flatMap (ossRunTargetRules f v.name (renderVariantEnv v.env)),
      rfl, ?_, ?_⟩
    · rw [List.filter_append, filter_flatMap, filter_flatMap]
      simp only [filter_build_runTargetRules, filter_build_ossRunTargetRules,
        flatMap_singleton_eq_map]
      simp [fuzzerVariantName, List.map_append, List.map_map,
        Function.comp_def]
    · rw [List.filter_append, filter_flatMap, filter_flatMap]
      simp only [filter_pull_runTargetRules, filter_pull_ossRunTargetRules,
        flatMap_singleton_eq_map]
      simp [fuzzerVariantName, List.map_append, List.map_map,
        Function.comp_def]

/-- The four dependency names used by the generated rules that the generated
stream itself never defines; they are defined by the hand-written Makefile
that includes the generated rules. -/
def baseTargets : List String :=
  ["base-builder", "pull-base-builder", "base-runner", "pull-base-runner"]

/-- Check of the no-forward-reference property: every rule's dependencies
name either a target in `ext` or a target defined by a strictly earlier rule
(`defined` accumulates the names already emitted). -/
def noForwardRefsAux (ext : List String) (defined : List String) :
    List Rule → Bool
  | [] => true
  | r :: rest =>
      r.deps.all (fun d => ext.contains d || defined.contains d) &&
        noForwardRefsAux ext (r.name :: defined) rest

/-- No-forward-reference check of a whole rule stream. -/
def noForwardRefs (ext : List String) (rules : List Rule) : Bool :=
  noForwardRefsAux ext [] rules

lemma containsIff (l : List String) (a : String) :
    l.contains a = true ↔ a ∈ l :=
  List.elem_iff

lemma noForwardRefsAux_append (ext defined : List String)
    (l1 l2 : List Rule) :
    noForwardRefsAux ext defined (l1 ++ l2) =
      (noForwardRefsAux ext defined l1 &&
        noForwardRefsAux ext ((l1.map Rule.name).reverse ++ defined) l2) := by
  induction l1 generalizing defined with
  | nil => simp [noForwardRefsAux]
  | cons r l ih =>
    simp [noForwardRefsAux, ih, Bool.and_assoc, List.append_assoc]

lemma noForwardRefsAux_mono (ext : List String) {d1 d2 : List String}
    (l : List Rule) (hsub : ∀ x ∈ d1, x ∈ d2)
    (h : noForwardRefsAux ext d1 l = true) :
    noForwardRefsAux ext d2 l = true := by
  induction l generalizing d1 d2 with
  | nil => simp [noForwardRefsAux]
  | cons r rest ih =>
    simp only [noForwardRefsAux, Bool.and_eq_true, List.all_eq_true] at h ⊢
    refine ⟨?_, ih (fun x hx => ?_) h.2⟩
    · intro d hd
      rcases Bool.or_eq_true_iff.mp (h.1 d hd) with hc | hc
      · exact Bool.or_eq_true_iff.mpr (Or.inl hc)
      · exact Bool.or_eq_true_iff.mpr
          (Or.inr ((containsIff _ _).mpr (hsub d ((containsIff _ _).mp hc))))
    · rcases List.mem_cons.mp hx with rfl | hx
      · exact List.mem_cons_self _ _
      · exact List.mem_cons_of_mem _ (hsub x hx)

lemma benchRules_noFwd (f b : String) (defined : List String)
    (h1 : dotBuilderName f ∈ defined) (h2 : dotPullBuilderName f ∈ defined) :
    noForwardRefsAux baseTargets defined (benchRules f f "" b) = true := by
  by_cases hcov : coverageOnly f <;>
    simp [benchRules, runTargetRules, hcov, noForwardRefsAux, baseTargets,
      containsIff, h1, h2]

lemma ossBenchRules_noFwd (f b : String) (defined : List String) :
    noForwardRefsAux baseTargets defined (ossBenchRules f f "" b) = true := by
  by_cases hcov : coverageOnly f <;>
    simp [ossBenchRules, ossRunTargetRules, hcov, noForwardRefsAux,
      baseTargets, containsIff]

lemma runTargetRules_noFwd (f n e b : String) (defined : List String)
    (h1 : dotRunnerName f b ∈ defined)
    (h2 : dotPullRunnerName f b ∈ defined) :
    noForwardRefsAux baseTargets defined (runTargetRules f n e b) = true := by
  simp [runTargetRules, noForwardRefsAux, baseTargets, containsIff, h1, h2]

lemma ossRunTargetRules_noFwd (f n e b : String) (defined : List String)
    (h1 : dotOssRunnerName f b ∈ defined)
    (h2 : dotPullOssRunnerName f b ∈ defined) :
    noForwardRefsAux baseTargets defined (ossRunTargetRules f n e b) =
      true := by
  simp [ossRunTargetRules, noForwardRefsAux, baseTargets, containsIff, h1, h2]

lemma umbrella_noFwd (n : String) (bs obs : List String)
    (defined : List String)
    (hb : ∀ b ∈ bs ++ obs, buildTargetName n b ∈ defined)
    (hp : ∀ b ∈ bs ++ obs, pullTargetName n b ∈ defined) :
    noForwardRefsAux baseTargets defined (umbrellaRules n bs obs) = true := by
  simp only [umbrellaRules, noForwardRefsAux, Bool.and_eq_true,
    List.all_eq_true]
  refine ⟨?_, ?_, trivial⟩
  · intro d hd
    rw [List.mem_map] at hd
    obtain ⟨b, hbm, rfl⟩ := hd
    exact Bool.or_eq_true_iff.mpr
      (Or.inr ((containsIff _ _).mpr (hb b hbm)))
  · intro d hd
    rw [List.mem_map] at hd
    obtain ⟨b, hbm, rfl⟩ := hd
    exact Bool.or_eq_true_iff.mpr
      (Or.inr ((containsIff _ _).mpr (List.mem_cons_of_mem _ (hp b hbm))))

lemma buildTarget_mem_benchRules_names (f b : String) :
    buildTargetName f b ∈ (benchRules f f "" b).map Rule.name := by
  by_cases hcov : coverageOnly f <;>
    simp [benchRules, runTargetRules, hcov]

lemma pullTarget_mem_benchRules_names (f b : String) :
    pullTargetName f b ∈ (benchRules f f "" b).map Rule.name := by
  by_cases hcov : coverageOnly f <;>
    simp [benchRules, runTargetRules, hcov]

lemma buildTarget_mem_ossBenchRules_names (f b : String) :
    buildTargetName f b ∈ (ossBenchRules f f "" b).map Rule.name := by
  by_cases hcov : coverageOnly f <;>
    simp [ossBenchRules, ossRunTargetRules, hcov]

lemma pullTarget_mem_ossBenchRules_names (f b : String) :
    pullTargetName f b ∈ (ossBenchRules f f "" b).map Rule.name := by
  by_cases hcov : coverageOnly f <;>
    simp [ossBenchRules, ossRunTargetRules, hcov]

lemma benchLoop_noFwd (f : String) (bs : List String)
    (defined : List String) (h1 : dotBuilderName f ∈ defined)
    (h2 : dotPullBuilderName f ∈ defined) :
    noForwardRefsAux baseTargets defined (bs.flatMap (benchRules f f "")) =
      true := by
  induction bs generalizing defined with
  | nil => simp [noForwardRefsAux]
  | cons b bs ih =>
    rw [List.flatMap_cons, noForwardRefsAux_append, Bool.and_eq_true]
    exact ⟨benchRules_noFwd f b defined h1 h2,
      ih _ (List.mem_append_right _ h1) (List.mem_append_right _ h2)⟩

lemma ossLoop_noFwd (f : String) (obs : List String)
    (defined : List String) :
    noForwardRefsAux baseTargets defined
      (obs.flatMap (ossBenchRules f f "")) = true := by
  induction obs generalizing defined with
  | nil => simp [noForwardRefsAux]
  | cons b obs ih =>
    rw [List.flatMap_cons, noForwardRefsAux_append, Bool.and_eq_true]
    exact ⟨ossBenchRules_noFwd f b defined, ih _⟩

lemma mem_rev_app_of_mem {x : String} {l : List String}
    (defined : List String) (h : x ∈ l) : x ∈ l.reverse ++ defined :=
  List.mem_append_left _ (List.mem_reverse.mpr h)

lemma name_mem_genFuzzer_none_of_bench (f : String) (bs obs : List String)
    (b : String) (x : String) (hb : b ∈ bs)
    (hx : x ∈ (benchRules f f "" b).map Rule.name) :
    x ∈ (generate_fuzzer f bs obs none).map Rule.name := by
  rw [List.mem_map] at hx
  obtain ⟨r, hr, rfl⟩ := hx
  exact List.mem_map.mpr ⟨r, mem_genFuzzer_bench f bs obs b hb r hr, rfl⟩

lemma name_mem_genFuzzer_none_of_oss (f : String) (bs obs : List String)
    (b : String) (x : String) (hb : b ∈ obs)
    (hx : x ∈ (ossBenchRules f f "" b).map Rule.name) :
    x ∈ (generate_fuzzer f bs obs none).map Rule.name := by
  rw [List.mem_map] at hx
  obtain ⟨r, hr, rfl⟩ := hx
  exact List.mem_map.mpr ⟨r, mem_genFuzzer_oss f bs obs b hb r hr, rfl⟩

lemma genFuzzer_none_noFwd (f : String) (bs obs : List String)
    (defined : List String) :
    noForwardRefsAux baseTargets defined (generate_fuzzer f bs obs none) =
      true := by
  show noForwardRefsAux baseTargets defined
    ((fuzzerRules f ++ bs.flatMap (benchRules f f "") ++
      obs.flatMap (ossBenchRules f f "")) ++ umbrellaRules f bs obs) = true
  rw [noForwardRefsAux_append, Bool.and_eq_true]
  constructor
  · rw [noForwardRefsAux_append, Bool.and_eq_true]
    refine ⟨?_, ossLoop_noFwd f obs _⟩
    rw [noForwardRefsAux_append, Bool.and_eq_true]
    refine ⟨by simp [fuzzerRules, noForwardRefsAux, baseTargets], ?_⟩
    exact benchLoop_noFwd f bs _ (by simp [fuzzerRules])
      (by simp [fuzzerRules])
  · apply umbrella_noFwd
    · intro b hb
      rcases List.mem_append.mp hb with hb | hb
      · refine mem_rev_app_of_mem _ ?_
        rw [List.map_append, List.map_append]
        refine List.mem_append_left _ (List.mem_append_right _ ?_)
        obtain ⟨r, hrm, hname⟩ :=
          List.mem_map.mp (buildTarget_mem_benchRules_names f b)
        exact List.mem_map.mpr ⟨r, List.mem_flatMap.mpr ⟨b, hb, hrm⟩, hname⟩
      · refine mem_rev_app_of_mem _ ?_
        rw [List.map_append]
        refine List.mem_append_right _ ?_
        obtain ⟨r, hrm, hname⟩ :=
          List.mem_map.mp (buildTarget_mem_ossBenchRules_names f b)
        exact List.mem_map.mpr ⟨r, List.mem_flatMap.mpr ⟨b, hb, hrm⟩, hname⟩
    · intro b hb
      rcases List.mem_append.mp hb with hb | hb
      · refine mem_rev_app_of_mem _ ?_
        rw [List.map_append, List.map_append]
        refine List.mem_append_left _ (List.mem_append_right _ ?_)
        obtain ⟨r, hrm, hname⟩ :=
          List.mem_map.mp (pullTarget_mem_benchRules_names f b)
        exact List.mem_map.mpr ⟨r, List.mem_flatMap.mpr ⟨b, hb, hrm⟩, hname⟩
      · refine mem_rev_app_of_mem _ ?_
        rw [List.map_append]
        refine List.mem_append_right _ ?_
        obtain ⟨r, hrm, hname⟩ :=
          List.mem_map.mp (pullTarget_mem_ossBenchRules_names f b)
        exact List.mem_map.mpr ⟨r, List.mem_flatMap.mpr ⟨b, hb, hrm⟩, hname⟩

lemma runTargetLoop_noFwd (f n e : String) (bs : List String)
    (defined : List String)
    (h : ∀ b ∈ bs, dotRunnerName f b ∈ defined ∧
      dotPullRunnerName f b ∈ defined) :
    noForwardRefsAux baseTargets defined
      (bs.flatMap (runTargetRules f n e)) = true := by
  induction bs generalizing defined with
  | nil => simp [noForwardRefsAux]
  | cons b bs ih =>
    rw [List.flatMap_cons, noForwardRefsAux_append, Bool.and_eq_true]
    refine ⟨runTargetRules_noFwd f n e b defined
      (h b (List.mem_cons_self _ _)).1 (h b (List.mem_cons_self _ _)).2, ?_⟩
    exact ih _ fun b' hb' =>
      ⟨List.mem_append_right _ (h b' (List.mem_cons_of_mem _ hb')).1,
        List.mem_append_right _ (h b' (List.mem_cons_of_mem _ hb')).2⟩

lemma ossRunTargetLoop_noFwd (f n e : String) (obs : List String)
    (defined : List String)
    (h : ∀ b ∈ obs, dotOssRunnerName f b ∈ defined ∧
      dotPullOssRunnerName f b ∈ defined) :
    noForwardRefsAux baseTargets defined
      (obs.flatMap (ossRunTargetRules f n e)) = true := by
  induction obs generalizing defined with
  | nil => simp [noForwardRefsAux]
  | cons b obs ih =>
    rw [List.flatMap_cons, noForwardRefsAux_append, Bool.and_eq_true]
    refine ⟨ossRunTargetRules_noFwd f n e b defined
      (h b (List.mem_cons_self _ _)).1 (h b (List.mem_cons_self _ _)).2, ?_⟩
    exact ih _ fun b' hb' =>
      ⟨List.mem_append_right _ (h b' (List.mem_cons_of_mem _ hb')).1,
        List.mem_append_right _ (h b' (List.mem_cons_of_mem _ hb')).2⟩

lemma buildTarget_mem_runTargetRules_names (f n e b : String) :
    buildTargetName n b ∈ (runTargetRules f n e b).map Rule.name := by
  simp [runTargetRules]

lemma pullTarget_mem_runTargetRules_names (f n e b : String) :
    pullTargetName n b ∈ (runTargetRules f n e b).map Rule.name := by
  simp [runTargetRules]

lemma buildTarget_mem_ossRunTargetRules_names (f n e b : String) :
    buildTargetName n b ∈ (ossRunTargetRules f n e b).map Rule.name := by
  simp [ossRunTargetRules]

lemma pullTarget_mem_ossRunTargetRules_names (f n e b : String) :
    pullTargetName n b ∈ (ossRunTargetRules f n e b).map Rule.name := by
  simp [ossRunTargetRules]

lemma genFuzzer_some_noFwd (f : String) (bs obs : List String)
    (v : FuzzerVariant) (defined : List String)
    (hr : ∀ b ∈ bs, dotRunnerName f b ∈ defined ∧
      dotPullRunnerName f b ∈ defined)
    (ho : ∀ b ∈ obs, dotOssRunnerName f b ∈ defined ∧
      dotPullOssRunnerName f b ∈ defined) :
    noForwardRefsAux baseTargets defined
      (generate_fuzzer f bs obs (some v)) = true := by
  show noForwardRefsAux baseTargets defined
    ((bs.flatMap (runTargetRules f v.name (renderVariantEnv v.env)) ++
      obs.flatMap (ossRunTargetRules f v.name (renderVariantEnv v.env))) ++
      umbrellaRules v.name bs obs) = true
  rw [noForwardRefsAux_append, Bool.and_eq_true]
  constructor
  · rw [noForwardRefsAux_append, Bool.and_eq_true]
    refine ⟨runTargetLoop_noFwd f v.name _ bs defined hr, ?_⟩
    exact ossRunTargetLoop_noFwd f v.name _ obs _ fun b hb =>
      ⟨List.mem_append_right _ (ho b hb).1,
        List.mem_append_right _ (ho b hb).2⟩
  · apply umbrella_noFwd
    · intro b hb
      rcases List.mem_append.mp hb with hb | hb
      · refine mem_rev_app_of_mem _ ?_
        rw [List.map_append]
        refine List.mem_append_left _ ?_
        obtain ⟨r, hrm, hname⟩ :=
          List.mem_map.mp (buildTarget_mem_runTargetRules_names f v.name
            (renderVariantEnv v.env) b)
        exact List.mem_map.mpr ⟨r, List.mem_flatMap.mpr ⟨b, hb, hrm⟩, hname⟩
      · refine mem_rev_app_of_mem _ ?_
        rw [List.map_append]
        refine List.mem_append_right _ ?_
        obtain ⟨r, hrm, hname⟩ :=
          List.mem_map.mp (buildTarget_mem_ossRunTargetRules_names f v.name
            (renderVariantEnv v.env) b)
        exact List.mem_map.mpr ⟨r, List.mem_flatMap.mpr ⟨b, hb, hrm⟩, hname⟩
    · intro b hb
      rcases List.mem_append.mp hb with hb | hb
      · refine mem_rev_app_of_mem _ ?_
        rw [List.map_append]
        refine List.mem_append_left _ ?_
        obtain ⟨r, hrm, hname⟩ :=
          List.mem_map.mp (pullTarget_mem_runTargetRules_names f v.name
            (renderVariantEnv v.env) b)
        exact List.mem_map.mpr ⟨r, List.mem_flatMap.mpr ⟨b, hb, hrm⟩, hname⟩
      · refine mem_rev_app_of_mem _ ?_
        rw [List.map_append]
        refine List.mem_append_right _ ?_
        obtain ⟨r, hrm, hname⟩ :=
          List.mem_map.mp (pullTarget_mem_ossRunTargetRules_names f v.name
            (renderVariantEnv v.env) b)
        exact List.mem_map.mpr ⟨r, List.mem_flatMap.mpr ⟨b, hb, hrm⟩, hname⟩

lemma runnerNames_mem_genFuzzer_none (f : String) (bs obs : List String)
    (hcov : coverageOnly f = false) :
    (∀ b ∈ bs,
      dotRunnerName f b ∈ (generate_fuzzer f bs obs none).map Rule.name ∧
      dotPullRunnerName f b ∈
        (generate_fuzzer f bs obs none).map Rule.name) ∧
    (∀ b ∈ obs,
      dotOssRunnerName f b ∈ (generate_fuzzer f bs obs none).map Rule.name ∧
      dotPullOssRunnerName f b ∈
        (generate_fuzzer f bs obs none).map Rule.name) := by
  constructor
  · intro b hb
    exact ⟨name_mem_genFuzzer_none_of_bench f bs obs b _ hb
        (by simp [benchRules, runTargetRules, hcov]),
      name_mem_genFuzzer_none_of_bench f bs obs b _ hb
        (by simp [benchRules, runTargetRules, hcov])⟩
  · intro b hb
    exact ⟨name_mem_genFuzzer_none_of_oss f bs obs b _ hb
        (by simp [ossBenchRules, ossRunTargetRules, hcov]),
      name_mem_genFuzzer_none_of_oss f bs obs b _ hb
        (by simp [ossBenchRules, ossRunTargetRules, hcov])⟩

lemma variantsLoop_noFwd (f : String) (bs obs : List String)
    (vs : List FuzzerVariant) (defined : List String)
    (hr : ∀ b ∈ bs, dotRunnerName f b ∈ defined ∧
      dotPullRunnerName f b ∈ defined)
    (ho : ∀ b ∈ obs, dotOssRunnerName f b ∈ defined ∧
      dotPullOssRunnerName f b ∈ defined) :
    noForwardRefsAux baseTargets defined
      (vs.flatMap fun v => generate_fuzzer f bs obs (some v)) = true := by
  induction vs generalizing defined with
  | nil => simp [noForwardRefsAux]
  | cons v vs ih =>
    rw [List.flatMap_cons, noForwardRefsAux_append, Bool.and_eq_true]
    refine ⟨genFuzzer_some_noFwd f bs obs v defined hr ho, ?_⟩
    exact ih _
      (fun b hb => ⟨List.mem_append_right _ (hr b hb).1,
        List.mem_append_right _ (hr b hb).2⟩)
      (fun b hb => ⟨List.mem_append_right _ (ho b hb).1,
        List.mem_append_right _ (ho b hb).2⟩)

lemma fuzzerBlock_noFwd (fz : Fuzzer) (bs obs : List String)
    (defined : List String)
    (hnc : coverageOnly fz.name = true → fz.variants = []) :
    noForwardRefsAux baseTargets defined
      (generate_fuzzer fz.name bs obs none ++
        fz.variants.flatMap fun v =>
          generate_fuzzer fz.name bs obs (some v)) = true := by
  rw [noForwardRefsAux_append, Bool.and_eq_true]
  refine ⟨genFuzzer_none_noFwd fz.name bs obs defined, ?_⟩
  cases hv : fz.variants with
  | nil => simp [noForwardRefsAux]
  | cons v vs =>
    have hcov : coverageOnly fz.name = false := by
      cases hcb : coverageOnly fz.name
      · rfl
      · rw [hnc hcb] at hv
        cases hv
    have hmem := runnerNames_mem_genFuzzer_none fz.name bs obs hcov
    apply variantsLoop_noFwd
    · intro b hb
      exact ⟨mem_rev_app_of_mem _ (hmem.1 b hb).1,
        mem_rev_app_of_mem _ (hmem.1 b hb).2⟩
    · intro b hb
      exact ⟨mem_rev_app_of_mem _ (hmem.2 b hb).1,
        mem_rev_app_of_mem _ (hmem.2 b hb).2⟩

lemma fuzzersLoop_noFwd (bs obs : List String) (fs : List Fuzzer)
    (defined : List String)
    (hnc : ∀ f ∈ fs, coverageOnly f.name = true → f.variants = []) :
    noForwardRefsAux baseTargets defined
      (fs.flatMap fun fz =>
        generate_fuzzer fz.name bs obs none ++
          fz.variants.flatMap fun v =>
            generate_fuzzer fz.name bs obs (some v)) = true := by
  induction fs generalizing defined with
  | nil => simp [noForwardRefsAux]
  | cons fz fs ih =>
    rw [List.flatMap_cons, noForwardRefsAux_append, Bool.and_eq_true]
    exact ⟨fuzzerBlock_noFwd fz bs obs defined
        (hnc fz (List.mem_cons_self _ _)),
      ih _ fun f hf => hnc f (List.mem_cons_of_mem _ hf)⟩

lemma umbrellaNames_mem_genFuzzer (f : String) (bs obs : List String)
    (var : Option FuzzerVariant) :
    buildAllName (fuzzerVariantName f var) ∈
      (generate_fuzzer f bs obs var).map Rule.name ∧
    pullAllName (fuzzerVariantName f var) ∈
      (generate_fuzzer f bs obs var).map Rule.name := by
  cases var with
  | none =>
    refine ⟨?_, ?_⟩ <;>
      · simp only [generate_fuzzer, List.map_append]
        exact List.mem_append_right _
          (by simp [umbrellaRules, fuzzerVariantName])
  | some v =>
    refine ⟨?_, ?_⟩ <;>
      · simp only [generate_fuzzer, List.map_append]
        exact List.mem_append_right _
          (by simp [umbrellaRules, fuzzerVariantName])

lemma allUmbrellaNames_mem (bs obs : List String) (fs : List Fuzzer) :
    ∀ n ∈ fuzzersAndVariants fs,
      buildAllName n ∈
        (fs.flatMap fun fz =>
          generate_fuzzer fz.name bs obs none ++
            fz.variants.flatMap fun v =>
              generate_fuzzer fz.name bs obs (some v)).map Rule.name ∧
      pullAllName n ∈
        (fs.flatMap fun fz =>
          generate_fuzzer fz.name bs obs none ++
            fz.variants.flatMap fun v =>
              generate_fuzzer fz.name bs obs (some v)).map Rule.name := by
  intro n hn
  rw [fuzzersAndVariants, List.mem_flatMap] at hn
  obtain ⟨fz, hfz, hn⟩ := hn
  rcases List.mem_cons.mp hn with rfl | hn
  · have hm := umbrellaNames_mem_genFuzzer fz.name bs obs none
    constructor
    · obtain ⟨r, hr, hname⟩ := List.mem_map.mp hm.1
      exact List.mem_map.mpr
        ⟨r, List.mem_flatMap.mpr ⟨fz, hfz, List.mem_append_left _ hr⟩, hname⟩
    · obtain ⟨r, hr, hname⟩ := List.mem_map.mp hm.2
      exact List.mem_map.mpr
        ⟨r, List.mem_flatMap.mpr ⟨fz, hfz, List.mem_append_left _ hr⟩, hname⟩
  · rw [List.mem_map] at hn
    obtain ⟨v, hv, rfl⟩ := hn
    have hm := umbrellaNames_mem_genFuzzer fz.name bs obs (some v)
    constructor
    · obtain ⟨r, hr, hname⟩ := List.mem_map.mp hm.1
      exact List.mem_map.mpr
        ⟨r, List.mem_flatMap.mpr ⟨fz, hfz, List.mem_append_right _
          (List.mem_flatMap.mpr ⟨v, hv, hr⟩)⟩, hname⟩
    · obtain ⟨r, hr, hname⟩ := List.mem_map.mp hm.2
      exact List.mem_map.mpr
        ⟨r, List.mem_flatMap.mpr ⟨fz, hfz, List.mem_append_right _
          (List.mem_flatMap.mpr ⟨v, hv, hr⟩)⟩, hname⟩

/-- C5 counterexample: with one fuzzer `afl` and one standard benchmark, the
very first emitted rule `.afl-builder` depends on `base-builder`, which no
rule of the output sequence defines (earlier or at all): the claim that
every dependency appears strictly earlier in the output fails. -/
theorem no_forward_refs_cex :
    noForwardRefs [] (generate_all ⟨[⟨"afl", []⟩], ["libxml_parse"], []⟩) =
      false := by
  decide

/-- C5 amended: every dependency of every generated rule either names one of
the four externally defined base targets (`base-builder`,
`pull-base-builder`, `base-runner`, `pull-base-runner`) or is defined by a
strictly earlier rule of the output sequence — hence the generated graph is
acyclic — provided no coverage-only fuzzer declares variants (a variant of a
coverage-only fuzzer references runner targets that the coverage branch
never defines). -/
theorem no_forward_refs_amended (s : Scan)
    (hnc : ∀ f ∈ s.fuzzers, coverageOnly f.name = true → f.variants = []) :
    noForwardRefs baseTargets (generate_all s) = true := by
  rw [noForwardRefs, generate_all, noForwardRefsAux_append, Bool.and_eq_true]
  refine ⟨fuzzersLoop_noFwd _ _ _ _ hnc, ?_⟩
  simp only [noForwardRefsAux, Bool.and_eq_true, List.all_eq_true]
  refine ⟨?_, ?_, trivial⟩
  · intro d hd
    rw [List.mem_map] at hd
    obtain ⟨n, hn, rfl⟩ := hd
    exact Bool.or_eq_true_iff.mpr (Or.inr ((containsIff _ _).mpr
      (mem_rev_app_of_mem _
        ((allUmbrellaNames_mem s.benchmarks s.ossFuzzBenchmarks s.fuzzers n
          hn).1))))
  · intro d hd
    rw [List.mem_map] at hd
    obtain ⟨n, hn, rfl⟩ := hd
    exact Bool.or_eq_true_iff.mpr (Or.inr ((containsIff _ _).mpr
      (List.mem_cons_of_mem _ (mem_rev_app_of_mem _
        ((allUmbrellaNames_mem s.benchmarks s.ossFuzzBenchmarks s.fuzzers n
          hn).2)))))

/-- Witness for C5 amended: a concrete scan with a fuzzer, a variant, a
standard and an externally-derived benchmark. -/
theorem no_forward_refs_amended_witness :
    noForwardRefs baseTargets
      (generate_all ⟨[⟨"afl", [⟨"v1", []⟩]⟩], ["x"], ["y"]⟩) = true :=
  no_forward_refs_amended ⟨[⟨"afl", [⟨"v1", []⟩]⟩], ["x"], ["y"]⟩
    (by decide)

/-! ## Target-name uniqueness
The generated target names are hyphen-joined token sequences
(`[a-z0-9_-]+` tokens per the name grammar).  To settle uniqueness we
decompose every emitted name into its token sequence and show the
decomposition is injective for hyphen-free tokens. -/

/-- Hyphen-join of a token list (the inverse of splitting a target name at
its separator hyphens). -/
def joinT : List String → String
  | [] => ""
  | [t] => t
  | t :: rest => t ++ "-" ++ joinT rest

/-- Character-level hyphen-join. -/
def joinC : List (List Char) → List Char
  | [] => []
  | [t] => t
  | t :: rest => t ++ '-' :: joinC rest

lemma joinT_data : ∀ ts : List String, (joinT ts).data = joinC (ts.map String.data)
  | [] => rfl
  | [t] => rfl
  | t :: t' :: rest => by
    show (t ++ "-" ++ joinT (t' :: rest)).data = _
    rw [String.data_append, String.data_append]
    show t.data ++ ('-' :: []) ++ (joinT (t' :: rest)).data =
      joinC (t.data :: (t' :: rest).map String.data)
    rw [joinT_data (t' :: rest)]
    have : joinC (t.data :: (t' :: rest).map String.data) =
        t.data ++ '-' :: joinC ((t' :: rest).map String.data) := rfl
    rw [this]
    simp

lemma splice_inj : ∀ (t1 t2 x y : List Char), '-' ∉ t1 → '-' ∉ t2 →
    t1 ++ '-' :: x = t2 ++ '-' :: y → t1 = t2 ∧ x = y
  | [], [], x, y, _, _, h => by simpa using h
  | [], c :: t2, x, y, _, h2, h => by
    simp only [List.nil_append, List.cons_append, List.cons.injEq] at h
    exact absurd (h.1 ▸ List.mem_cons_self c t2) h2
  | c :: t1, [], x, y, h1, _, h => by
    simp only [List.nil_append, List.cons_append, List.cons.injEq] at h
    exact absurd (h.1.symm ▸ List.mem_cons_self c t1) h1
  | c :: t1, c2 :: t2, x, y, h1, h2, h => by
    simp only [List.cons_append, List.cons.injEq] at h
    have ih := splice_inj t1 t2 x y
      (fun hm => h1 (List.mem_cons_of_mem _ hm))
      (fun hm => h2 (List.mem_cons_of_mem _ hm)) h.2
    exact ⟨by rw [h.1, ih.1], ih.2⟩

lemma joinC_inj : ∀ ts1 ts2 : List (List Char),
    (∀ t ∈ ts1, t ≠ [] ∧ '-' ∉ t) → (∀ t ∈ ts2, t ≠ [] ∧ '-' ∉ t) →
    joinC ts1 = joinC ts2 → ts1 = ts2
  | [], [], _, _, _ => rfl
  | [], [t], _, h2, h => by
    exact absurd h.symm (h2 t (List.mem_cons_self _ _)).1
  | [], t :: t' :: rest, h1, h2, h => by
    exfalso
    have heq : joinC (t :: t' :: rest) = t ++ '-' :: joinC (t' :: rest) := rfl
    rw [heq, show joinC ([] : List (List Char)) = [] from rfl] at h
    rcases t with _ | ⟨c, t⟩
    · exact (h2 [] (List.mem_cons_self _ _)).1 rfl
    · simp at h
  | [t], [], h1, _, h => by
    exact absurd h (h1 t (List.mem_cons_self _ _)).1
  | t :: t' :: rest, [], h1, h2, h => by
    exfalso
    have heq : joinC (t :: t' :: rest) = t ++ '-' :: joinC (t' :: rest) := rfl
    rw [heq, show joinC ([] : List (List Char)) = [] from rfl] at h
    rcases t with _ | ⟨c, t⟩
    · exact (h1 [] (List.mem_cons_self _ _)).1 rfl
    · simp at h
  | [t1], [t2], _, _, h => by rw [show joinC [t1] = t1 from rfl,
      show joinC [t2] = t2 from rfl] at h; rw [h]
  | [t1], t2 :: t2' :: rest, h1, h2, h => by
    exfalso
    have heq : joinC (t2 :: t2' :: rest) = t2 ++ '-' :: joinC (t2' :: rest) :=
      rfl
    rw [show joinC [t1] = t1 from rfl, heq] at h
    have hdash : '-' ∈ t1 := by
      rw [h]
      exact List.mem_append_right _ (List.mem_cons_self _ _)
    exact (h1 t1 (List.mem_cons_self _ _)).2 hdash
  | t1 :: t1' :: rest1, [t2], h1, h2, h => by
    exfalso
    have heq : joinC (t1 :: t1' :: rest1) = t1 ++ '-' :: joinC (t1' :: rest1) :=
      rfl
    rw [show joinC [t2] = t2 from rfl, heq] at h
    have hdash : '-' ∈ t2 := by
      rw [← h]
      exact List.mem_append_right _ (List.mem_cons_self _ _)
    exact (h2 t2 (List.mem_cons_self _ _)).2 hdash
  | t1 :: t1' :: rest1, t2 :: t2' :: rest2, h1, h2, h => by
    have heq1 : joinC (t1 :: t1' :: rest1) =
      t1 ++ '-' :: joinC (t1' :: rest1) := rfl
    have heq2 : joinC (t2 :: t2' :: rest2) =
      t2 ++ '-' :: joinC (t2' :: rest2) := rfl
    rw [heq1, heq2] at h
    have hs := splice_inj t1 t2 _ _
      (h1 t1 (List.mem_cons_self _ _)).2 (h2 t2 (List.mem_cons_self _ _)).2 h
    have ih := joinC_inj (t1' :: rest1) (t2' :: rest2)
      (fun t ht => h1 t (List.mem_cons_of_mem _ ht))
      (fun t ht => h2 t (List.mem_cons_of_mem _ ht)) hs.2
    rw [hs.1, ih]

lemma string_data_inj {a b : String} (h : a.data = b.data) : a = b := by
  cases a; cases b; exact congrArg String.mk h

lemma joinT_inj (ts1 ts2 : List String)
    (h1 : ∀ t ∈ ts1, t ≠ "" ∧ '-' ∉ t.data)
    (h2 : ∀ t ∈ ts2, t ≠ "" ∧ '-' ∉ t.data)
    (h : joinT ts1 = joinT ts2) : ts1 = ts2 := by
  have hc : joinC (ts1.map String.data) = joinC (ts2.map String.data) := by
    rw [← joinT_data, ← joinT_data, h]
  have hinj := joinC_inj (ts1.map String.data) (ts2.map String.data)
    (by
      intro t ht
      rw [List.mem_map] at ht
      obtain ⟨s, hs, rfl⟩ := ht
      refine ⟨?_, (h1 s hs).2⟩
      intro hnil
      exact (h1 s hs).1 (string_data_inj (by simpa using hnil)))
    (by
      intro t ht
      rw [List.mem_map] at ht
      obtain ⟨s, hs, rfl⟩ := ht
      refine ⟨?_, (h2 s hs).2⟩
      intro hnil
      exact (h2 s hs).1 (string_data_inj (by simpa using hnil)))
    hc
  exact List.map_injective_iff.mpr (fun a b hab => string_data_inj hab) hinj

/-- Token decomposition of the generated target names: one constructor per
name shape the generator emits. -/
inductive NTag where
  | fzBuilder (f : String)
  | fzPullBuilder (f : String)
  | bBuilder (f b : String)
  | bPullBuilder (f b : String)
  | bInterRunner (f b : String)
  | bPullInterRunner (f b : String)
  | bRunner (f b : String)
  | bPullRunner (f b : String)
  | oBuilderInter (f b : String)
  | oPullBuilderInter (f b : String)
  | oBuilder (f b : String)
  | oPullBuilder (f b : String)
  | oInterRunner (f b : String)
  | oPullInterRunner (f b : String)
  | oRunner (f b : String)
  | oPullRunner (f b : String)
  | tBuild (n b : String)
  | tPull (n b : String)
  | tRun (n b : String)
  | tTestRun (n b : String)
  | tDebug (n b : String)
  | uBuild (n : String)
  | uPull (n : String)
  | topBuild
  | topPull
deriving DecidableEq, Repr

/-- The hyphen-separated tokens of each name shape. -/
def tagTokens : NTag → List String
  | .fzBuilder f => ["." ++ f, "builder"]
  | .fzPullBuilder f => [".pull", f, "builder"]
  | .bBuilder f b => ["." ++ f, b, "builder"]
  | .bPullBuilder f b => [".pull", f, b, "builder"]
  | .bInterRunner f b => ["." ++ f, b, "intermediate", "runner"]
  | .bPullInterRunner f b => [".pull", f, b, "intermediate", "runner"]
  | .bRunner f b => ["." ++ f, b, "runner"]
  | .bPullRunner f b => [".pull", f, b, "runner"]
  | .oBuilderInter f b =>
      ["." ++ f, b, "oss", "fuzz", "builder", "intermediate"]
  | .oPullBuilderInter f b =>
      [".pull", f, b, "oss", "fuzz", "builder", "intermediate"]
  | .oBuilder f b => ["." ++ f, b, "oss", "fuzz", "builder"]
  | .oPullBuilder f b => [".pull", f, b, "oss", "fuzz", "builder"]
  | .oInterRunner f b =>
      ["." ++ f, b, "oss", "fuzz", "intermediate", "runner"]
  | .oPullInterRunner f b =>
      [".pull", f, b, "oss", "fuzz", "intermediate", "runner"]
  | .oRunner f b => ["." ++ f, b, "oss", "fuzz", "runner"]
  | .oPullRunner f b => [".pull", f, b, "oss", "fuzz", "runner"]
  | .tBuild n b => ["build", n, b]
  | .tPull n b => ["pull", n, b]
  | .tRun n b => ["run", n, b]
  | .tTestRun n b => ["test", "run", n, b]
  | .tDebug n b => ["debug", n, b]
  | .uBuild n => ["build", n, "all"]
  | .uPull n => ["pull", n, "all"]
  | .topBuild => ["build", "all"]
  | .topPull => ["pull", "all"]

/-- The target name a token decomposition renders to. -/
def tagStr (t : NTag) : String := joinT (tagTokens t)

lemma tagStr_fzBuilder (f : String) :
    tagStr (.fzBuilder f) = dotBuilderName f := by
  apply string_data_inj
  simp [tagStr, tagTokens, joinT, dotBuilderName, String.data_append,
    List.append_assoc]

lemma tagStr_fzPullBuilder (f : String) :
    tagStr (.fzPullBuilder f) = dotPullBuilderName f := by
  apply string_data_inj
  simp [tagStr, tagTokens, joinT, dotPullBuilderName, String.data_append,
    List.append_assoc]

lemma tagStr_bBuilder (f b : String) :
    tagStr (.bBuilder f b) = dotBenchBuilderName f b := by
  apply string_data_inj
  simp [tagStr, tagTokens, joinT, dotBenchBuilderName, String.data_append,
    List.append_assoc]

lemma tagStr_bPullBuilder (f b : String) :
    tagStr (.bPullBuilder f b) = dotPullBenchBuilderName f b := by
  apply string_data_inj
  simp [tagStr, tagTokens, joinT, dotPullBenchBuilderName,
    String.data_append, List.append_assoc]

lemma tagStr_bInterRunner (f b : String) :
    tagStr (.bInterRunner f b) = dotInterRunnerName f b := by
  apply string_data_inj
  simp [tagStr, tagTokens, joinT, dotInterRunnerName, String.data_append,
    List.append_assoc]

lemma tagStr_bPullInterRunner (f b : String) :
    tagStr (.bPullInterRunner f b) = dotPullInterRunnerName f b := by
  apply string_data_inj
  simp [tagStr, tagTokens, joinT, dotPullInterRunnerName,
    String.data_append, List.append_assoc]

lemma tagStr_bRunner (f b : String) :
    tagStr (.bRunner f b) = dotRunnerName f b := by
  apply string_data_inj
  simp [tagStr, tagTokens, joinT, dotRunnerName, String.data_append,
    List.append_assoc]

lemma tagStr_bPullRunner (f b : String) :
    tagStr (.bPullRunner f b) = dotPullRunnerName f b := by
  apply string_data_inj
  simp [tagStr, tagTokens, joinT, dotPullRunnerName, String.data_append,
    List.append_assoc]

lemma tagStr_oBuilderInter (f b : String) :
    tagStr (.oBuilderInter f b) = dotOssBuilderInterName f b := by
  apply string_data_inj
  simp [tagStr, tagTokens, joinT, dotOssBuilderInterName,
    String.data_append, List.append_assoc]

lemma tagStr_oPullBuilderInter (f b : String) :
    tagStr (.oPullBuilderInter f b) = dotPullOssBuilderInterName f b := by
  apply string_data_inj
  simp [tagStr, tagTokens, joinT, dotPullOssBuilderInterName,
    String.data_append, List.append_assoc]

lemma tagStr_oBuilder (f b : String) :
    tagStr (.oBuilder f b) = dotOssBuilderName f b := by
  apply string_data_inj
  simp [tagStr, tagTokens, joinT, dotOssBuilderName, String.data_append,
    List.append_assoc]

lemma tagStr_oPullBuilder (f b : String) :
    tagStr (.oPullBuilder f b) = dotPullOssBuilderName f b := by
  apply string_data_inj
  simp [tagStr, tagTokens, joinT, dotPullOssBuilderName,
    String.data_append, List.append_assoc]

lemma tagStr_oInterRunner (f b : String) :
    tagStr (.oInterRunner f b) = dotOssInterRunnerName f b := by
  apply string_data_inj
  simp [tagStr, tagTokens, joinT, dotOssInterRunnerName,
    String.data_append, List.append_assoc]

lemma tagStr_oPullInterRunner (f b : String) :
    tagStr (.oPullInterRunner f b) = dotPullOssInterRunnerName f b := by
  apply string_data_inj
  simp [tagStr, tagTokens, joinT, dotPullOssInterRunnerName,
    String.data_append, List.append_assoc]

lemma tagStr_oRunner (f b : String) :
    tagStr (.oRunner f b) = dotOssRunnerName f b := by
  apply string_data_inj
  simp [tagStr, tagTokens, joinT, dotOssRunnerName, String.data_append,
    List.append_assoc]

lemma tagStr_oPullRunner (f b : String) :
    tagStr (.oPullRunner f b) = dotPullOssRunnerName f b := by
  apply string_data_inj
  simp [tagStr, tagTokens, joinT, dotPullOssRunnerName,
    String.data_append, List.append_assoc]

lemma tagStr_tBuild (n b : String) :
    tagStr (.tBuild n b) = buildTargetName n b := by
  apply string_data_inj
  simp [tagStr, tagTokens, joinT, buildTargetName, String.data_append,
    List.append_assoc]

lemma tagStr_tPull (n b : String) :
    tagStr (.tPull n b) = pullTargetName n b := by
  apply string_data_inj
  simp [tagStr, tagTokens, joinT, pullTargetName, String.data_append,
    List.append_assoc]

lemma tagStr_tRun (n b : String) :
    tagStr (.tRun n b) = runTargetName n b := by
  apply string_data_inj
  simp [tagStr, tagTokens, joinT, runTargetName, String.data_append,
    List.append_assoc]

lemma tagStr_tTestRun (n b : String) :
    tagStr (.tTestRun n b) = testRunTargetName n b := by
  apply string_data_inj
  simp [tagStr, tagTokens, joinT, testRunTargetName, String.data_append,
    List.append_assoc]

lemma tagStr_tDebug (n b : String) :
    tagStr (.tDebug n b) = debugTargetName n b := by
  apply string_data_inj
  simp [tagStr, tagTokens, joinT, debugTargetName, String.data_append,
    List.append_assoc]

lemma tagStr_uBuild (n : String) :
    tagStr (.uBuild n) = buildAllName n := by
  apply string_data_inj
  simp [tagStr, tagTokens, joinT, buildAllName, String.data_append,
    List.append_assoc]

lemma tagStr_uPull (n : String) :
    tagStr (.uPull n) = pullAllName n := by
  apply string_data_inj
  simp [tagStr, tagTokens, joinT, pullAllName, String.data_append,
    List.append_assoc]

lemma tagStr_topBuild : tagStr .topBuild = "build-all" := rfl

lemma tagStr_topPull : tagStr .topPull = "pull-all" := rfl

/-- Hygiene of the parameters of a name shape, under which the hyphen-join
is unambiguous: parameters are nonempty hyphen-free tokens, fuzzer names are
not the reserved token `pull` (else `.pull-x-builder` parses two ways) and
benchmark names are not the reserved token `all` (else `build-f-all`
collides with the umbrella target). -/
def tagGood : NTag → Prop
  | .fzBuilder f => f ≠ "" ∧ '-' ∉ f.data ∧ f ≠ "pull"
  | .fzPullBuilder f => f ≠ "" ∧ '-' ∉ f.data ∧ f ≠ "pull"
  | .bBuilder f b | .bPullBuilder f b | .bInterRunner f b
  | .bPullInterRunner f b | .bRunner f b | .bPullRunner f b
  | .oBuilderInter f b | .oPullBuilderInter f b | .oBuilder f b
  | .oPullBuilder f b | .oInterRunner f b | .oPullInterRunner f b
  | .oRunner f b | .oPullRunner f b =>
      (f ≠ "" ∧ '-' ∉ f.data ∧ f ≠ "pull") ∧ (b ≠ "" ∧ '-' ∉ b.data)
  | .tBuild n b | .tPull n b | .tRun n b | .tTestRun n b | .tDebug n b =>
      (n ≠ "" ∧ '-' ∉ n.data) ∧ (b ≠ "" ∧ '-' ∉ b.data ∧ b ≠ "all")
  | .uBuild n | .uPull n => n ≠ "" ∧ '-' ∉ n.data
  | .topBuild | .topPull => True

lemma data_eq_iff (a b : String) : a.data = b.data ↔ a = b :=
  ⟨string_data_inj, fun h => by rw [h]⟩

lemma dot_append_eq_iff (f s : String) :
    ("." ++ f = s) ↔ '.' :: f.data = s.data := by
  constructor
  · intro h
    have h2 := congrArg String.data h
    rw [String.data_append] at h2
    simpa using h2
  · intro h
    apply string_data_inj
    rw [String.data_append]
    simpa using h

lemma data_eq_pull_iff (f : String) :
    f.data = ['p', 'u', 'l', 'l'] ↔ f = "pull" := by
  rw [show ['p', 'u', 'l', 'l'] = ("pull" : String).data from rfl]
  exact data_eq_iff f "pull"

lemma dot_tok_ne_empty (f : String) : ("." ++ f) ≠ "" := by
  intro h
  rw [dot_append_eq_iff] at h
  simp at h

lemma dot_tok_hyphenFree (f : String) (hf : '-' ∉ f.data) :
    '-' ∉ ("." ++ f).data := by
  rw [String.data_append]
  intro h
  rcases List.mem_append.mp h with h | h
  · simp at h
  · exact hf h

/-- All tokens of a good tag are nonempty and hyphen-free. -/
lemma tagTokens_good (t : NTag) (hg : tagGood t) :
    ∀ tok ∈ tagTokens t, tok ≠ "" ∧ '-' ∉ tok.data := by
  cases t <;>
    · simp only [tagTokens, tagGood] at hg ⊢
      intro tok htok
      simp only [List.mem_cons, List.not_mem_nil, or_false] at htok
      rcases htok with rfl | rfl | rfl | rfl | rfl | rfl | rfl <;>
        first
          | exact ⟨dot_tok_ne_empty _, dot_tok_hyphenFree _ (by tauto)⟩
          | exact ⟨by tauto, by tauto⟩

lemma dot_append_eq_iff' (f s : String) :
    (s = "." ++ f) ↔ s.data = '.' :: f.data := by
  rw [eq_comm, dot_append_eq_iff, eq_comm]

lemma pull_eq_data_iff (f : String) :
    (['p', 'u', 'l', 'l'] = f.data) ↔ f = "pull" := by
  rw [eq_comm, data_eq_pull_iff]

set_option maxHeartbeats 3200000 in
/-- Two good tags rendering to the same token sequence are equal. -/
lemma tagTokens_inj (t1 t2 : NTag) (g1 : tagGood t1) (g2 : tagGood t2)
    (h : tagTokens t1 = tagTokens t2) : t1 = t2 := by
  cases t1 <;> cases t2 <;>
    simp_all [tagTokens, tagGood, dot_append_eq_iff, dot_append_eq_iff',
      data_eq_pull_iff, pull_eq_data_iff, data_eq_iff, String.data_append]

/-- Two good tags rendering to the same target name are equal. -/
lemma tagStr_inj (t1 t2 : NTag) (g1 : tagGood t1) (g2 : tagGood t2)
    (h : tagStr t1 = tagStr t2) : t1 = t2 :=
  tagTokens_inj t1 t2 g1 g2
    (joinT_inj _ _ (tagTokens_good t1 g1) (tagTokens_good t2 g2) h)

/-- Token decompositions of the names of `runTargetRules` /
`ossRunTargetRules` (both emit the same five names). -/
def runTargetTags (n b : String) : List NTag :=
  [.tBuild n b, .tPull n b, .tRun n b, .tTestRun n b, .tDebug n b]

/-- Token decompositions of the names of `benchRules`. -/
def benchTags (f b : String) : List NTag :=
  [.bBuilder f b, .bPullBuilder f b] ++
  (if coverageOnly f then [.tBuild f b, .tPull f b]
  else [.bInterRunner f b, .bPullInterRunner f b, .bRunner f b,
    .bPullRunner f b] ++ runTargetTags f b)

/-- Token decompositions of the names of `ossBenchRules`. -/
def ossBenchTags (f b : String) : List NTag :=
  [.oBuilderInter f b, .oPullBuilderInter f b, .oBuilder f b,
    .oPullBuilder f b] ++
  (if coverageOnly f then [.tBuild f b, .tPull f b]
  else [.oInterRunner f b, .oPullInterRunner f b, .oRunner f b,
    .oPullRunner f b] ++ runTargetTags f b)

/-- Token decompositions of the names of `generate_fuzzer`. -/
def genFuzzerTags (f : String) (bs obs : List String)
    (var : Option FuzzerVariant) : List NTag :=
  match var with
  | some v =>
    (bs.flatMap (runTargetTags v.name) ++
      obs.flatMap (runTargetTags v.name)) ++ [.uBuild v.name, .uPull v.name]
  | none =>
    ([.fzBuilder f, .fzPullBuilder f] ++ bs.flatMap (benchTags f) ++
      obs.flatMap (ossBenchTags f)) ++ [.uBuild f, .uPull f]

/-- Token decompositions of all names of `generate_all`. -/
def genAllTags (s : Scan) : List NTag :=
  (s.fuzzers.flatMap fun fz =>
    genFuzzerTags fz.name s.benchmarks s.ossFuzzBenchmarks none ++
      fz.variants.flatMap fun v =>
        genFuzzerTags fz.name s.benchmarks s.ossFuzzBenchmarks (some v)) ++
  [.topBuild, .topPull]

lemma map_flatMap (l : List α) (g : α → List β) (h : β → γ) :
    (l.flatMap g).map h = l.flatMap fun a => (g a).map h := by
  induction l with
  | nil => rfl
  | cons a l ih => simp [List.flatMap_cons, ih]

lemma names_runTargetRules (f n e b : String) :
    (runTargetRules f n e b).map Rule.name = (runTargetTags n b).map tagStr := by
  simp [runTargetRules, runTargetTags, tagStr_tBuild, tagStr_tPull,
    tagStr_tRun, tagStr_tTestRun, tagStr_tDebug]

lemma names_ossRunTargetRules (f n e b : String) :
    (ossRunTargetRules f n e b).map Rule.name =
      (runTargetTags n b).map tagStr := by
  simp [ossRunTargetRules, runTargetTags, tagStr_tBuild, tagStr_tPull,
    tagStr_tRun, tagStr_tTestRun, tagStr_tDebug]

lemma names_benchRules (f e b : String) :
    (benchRules f f e b).map Rule.name = (benchTags f b).map tagStr := by
  by_cases hcov : coverageOnly f <;>
    simp [benchRules, benchTags, runTargetRules, runTargetTags, hcov,
      tagStr_bBuilder, tagStr_bPullBuilder, tagStr_bInterRunner,
      tagStr_bPullInterRunner, tagStr_bRunner, tagStr_bPullRunner,
      tagStr_tBuild, tagStr_tPull, tagStr_tRun, tagStr_tTestRun,
      tagStr_tDebug]

lemma names_ossBenchRules (f e b : String) :
    (ossBenchRules f f e b).map Rule.name = (ossBenchTags f b).map tagStr := by
  by_cases hcov : coverageOnly f <;>
    simp [ossBenchRules, ossBenchTags, ossRunTargetRules, runTargetTags,
      hcov, tagStr_oBuilderInter, tagStr_oPullBuilderInter, tagStr_oBuilder,
      tagStr_oPullBuilder, tagStr_oInterRunner, tagStr_oPullInterRunner,
      tagStr_oRunner, tagStr_oPullRunner, tagStr_tBuild, tagStr_tPull,
      tagStr_tRun, tagStr_tTestRun, tagStr_tDebug]

lemma names_genFuzzer (f : String) (bs obs : List String)
    (var : Option FuzzerVariant) :
    (generate_fuzzer f bs obs var).map Rule.name =
      (genFuzzerTags f bs obs var).map tagStr := by
  cases var with
  | some v =>
    simp only [generate_fuzzer, genFuzzerTags, List.map_append, map_flatMap,
      names_runTargetRules, names_ossRunTargetRules]
    simp [umbrellaRules, tagStr_uBuild, tagStr_uPull]
  | none =>
    simp only [generate_fuzzer, genFuzzerTags, List.map_append, map_flatMap,
      names_benchRules, names_ossBenchRules]
    simp [umbrellaRules, fuzzerRules, tagStr_uBuild, tagStr_uPull,
      tagStr_fzBuilder, tagStr_fzPullBuilder]

lemma names_genAll (s : Scan) :
    (generate_all s).map Rule.name = (genAllTags s).map tagStr := by
  simp only [generate_all, genAllTags, List.map_append, map_flatMap,
    names_genFuzzer]
  simp [tagStr_topBuild, tagStr_topPull]

/-- Benchmark slot of a name shape (`none` for the per-fuzzer and top-level
shapes). -/
def tagBench : NTag → Option String
  | .bBuilder _ b | .bPullBuilder _ b | .bInterRunner _ b
  | .bPullInterRunner _ b | .bRunner _ b | .bPullRunner _ b
  | .oBuilderInter _ b | .oPullBuilderInter _ b | .oBuilder _ b
  | .oPullBuilder _ b | .oInterRunner _ b | .oPullInterRunner _ b
  | .oRunner _ b | .oPullRunner _ b | .tBuild _ b | .tPull _ b
  | .tRun _ b | .tTestRun _ b | .tDebug _ b => some b
  | .fzBuilder _ | .fzPullBuilder _ | .uBuild _ | .uPull _
  | .topBuild | .topPull => none

/-- Owning fuzzer or variant namespace of a name shape (`none` for the two
top-level shapes). -/
def tagOwner : NTag → Option String
  | .fzBuilder f | .fzPullBuilder f | .bBuilder f _ | .bPullBuilder f _
  | .bInterRunner f _ | .bPullInterRunner f _ | .bRunner f _
  | .bPullRunner f _ | .oBuilderInter f _ | .oPullBuilderInter f _
  | .oBuilder f _ | .oPullBuilder f _ | .oInterRunner f _
  | .oPullInterRunner f _ | .oRunner f _ | .oPullRunner f _ => some f
  | .tBuild n _ | .tPull n _ | .tRun n _ | .tTestRun n _ | .tDebug n _ =>
      some n
  | .uBuild n | .uPull n => some n
  | .topBuild | .topPull => none

lemma tagBench_runTargetTags (n b : String) :
    ∀ t ∈ runTargetTags n b, tagBench t = some b := by
  intro t ht
  simp [runTargetTags] at ht
  rcases ht with rfl | rfl | rfl | rfl | rfl <;> rfl

lemma tagBench_benchTags (f b : String) :
    ∀ t ∈ benchTags f b, tagBench t = some b := by
  intro t ht
  by_cases hcov : coverageOnly f <;>
    · simp [benchTags, runTargetTags, hcov] at ht
      rcases ht with rfl | rfl | rfl | rfl | rfl | rfl | rfl | rfl | rfl |
        rfl | rfl <;> rfl

lemma tagBench_ossBenchTags (f b : String) :
    ∀ t ∈ ossBenchTags f b, tagBench t = some b := by
  intro t ht
  by_cases hcov : coverageOnly f <;>
    · simp [ossBenchTags, runTargetTags, hcov] at ht
      rcases ht with rfl | rfl | rfl | rfl | rfl | rfl | rfl | rfl | rfl |
        rfl | rfl | rfl | rfl <;> rfl

lemma tagOwner_runTargetTags (n b : String) :
    ∀ t ∈ runTargetTags n b, tagOwner t = some n := by
  intro t ht
  simp [runTargetTags] at ht
  rcases ht with rfl | rfl | rfl | rfl | rfl <;> rfl

lemma tagOwner_benchTags (f b : String) :
    ∀ t ∈ benchTags f b, tagOwner t = some f := by
  intro t ht
  by_cases hcov : coverageOnly f <;>
    · simp [benchTags, runTargetTags, hcov] at ht
      rcases ht with rfl | rfl | rfl | rfl | rfl | rfl | rfl | rfl | rfl |
        rfl | rfl <;> rfl

lemma tagOwner_ossBenchTags (f b : String) :
    ∀ t ∈ ossBenchTags f b, tagOwner t = some f := by
  intro t ht
  by_cases hcov : coverageOnly f <;>
    · simp [ossBenchTags, runTargetTags, hcov] at ht
      rcases ht with rfl | rfl | rfl | rfl | rfl | rfl | rfl | rfl | rfl |
        rfl | rfl | rfl | rfl <;> rfl

lemma tagOwner_genFuzzerTags (f : String) (bs obs : List String)
    (var : Option FuzzerVariant) :
    ∀ t ∈ genFuzzerTags f bs obs var,
      tagOwner t = some (fuzzerVariantName f var) := by
  intro t ht
  cases var with
  | some v =>
    simp only [genFuzzerTags, List.mem_append, List.mem_flatMap] at ht
    rcases ht with ((⟨b, _, ht⟩ | ⟨b, _, ht⟩) | ht)
    · exact tagOwner_runTargetTags v.name b t ht
    · exact tagOwner_runTargetTags v.name b t ht
    · simp at ht
      rcases ht with rfl | rfl <;> rfl
  | none =>
    simp only [genFuzzerTags, List.mem_append, List.mem_flatMap] at ht
    rcases ht with (((ht | ⟨b, _, ht⟩) | ⟨b, _, ht⟩) | ht)
    · simp at ht
      rcases ht with rfl | rfl <;> rfl
    · exact tagOwner_benchTags f b t ht
    · exact tagOwner_ossBenchTags f b t ht
    · simp at ht
      rcases ht with rfl | rfl <;> rfl

lemma nodup_runTargetTags (n b : String) : (runTargetTags n b).Nodup := by
  simp [runTargetTags]

lemma nodup_benchTags (f b : String) : (benchTags f b).Nodup := by
  by_cases hcov : coverageOnly f <;>
    simp [benchTags, runTargetTags, hcov]

lemma nodup_ossBenchTags (f b : String) : (ossBenchTags f b).Nodup := by
  by_cases hcov : coverageOnly f <;>
    simp [ossBenchTags, runTargetTags, hcov]

lemma disjoint_of_discr {α β : Type _} (disc : α → Option β)
    (l1 l2 : List α) (y1 y2 : Option β)
    (h1 : ∀ t ∈ l1, disc t = y1) (h2 : ∀ t ∈ l2, disc t = y2)
    (hne : y1 ≠ y2) : l1.Disjoint l2 := by
  intro a ha1 ha2
  exact hne (by rw [← h1 a ha1, h2 a ha2])

lemma nodup_flat_runTargetTags (n : String) (bs : List String)
    (hbs : bs.Nodup) : (bs.flatMap (runTargetTags n)).Nodup := by
  refine List.nodup_flatMap.mpr ⟨fun b _ => nodup_runTargetTags n b, ?_⟩
  exact hbs.imp fun hne => disjoint_of_discr tagBench _ _ _ _
    (tagBench_runTargetTags n _) (tagBench_runTargetTags n _)
    (fun hs => hne (Option.some_inj.mp hs))

lemma nodup_flat_benchTags (f : String) (bs : List String)
    (hbs : bs.Nodup) : (bs.flatMap (benchTags f)).Nodup := by
  refine List.nodup_flatMap.mpr ⟨fun b _ => nodup_benchTags f b, ?_⟩
  exact hbs.imp fun hne => disjoint_of_discr tagBench _ _ _ _
    (tagBench_benchTags f _) (tagBench_benchTags f _)
    (fun hs => hne (Option.some_inj.mp hs))

lemma nodup_flat_ossBenchTags (f : String) (obs : List String)
    (hobs : obs.Nodup) : (obs.flatMap (ossBenchTags f)).Nodup := by
  refine List.nodup_flatMap.mpr ⟨fun b _ => nodup_ossBenchTags f b, ?_⟩
  exact hobs.imp fun hne => disjoint_of_discr tagBench _ _ _ _
    (tagBench_ossBenchTags f _) (tagBench_ossBenchTags f _)
    (fun hs => hne (Option.some_inj.mp hs))

lemma bench_disjoint_of_mem {g1 g2 : String → List NTag}
    (bs obs : List String) (hd : ∀ b ∈ bs, b ∉ obs)
    (hg1 : ∀ b, ∀ t ∈ g1 b, tagBench t = some b)
    (hg2 : ∀ b, ∀ t ∈ g2 b, tagBench t = some b) :
    (bs.flatMap g1).Disjoint (obs.flatMap g2) := by
  intro a ha1 ha2
  obtain ⟨b1, hb1, ht1⟩ := List.mem_flatMap.mp ha1
  obtain ⟨b2, hb2, ht2⟩ := List.mem_flatMap.mp ha2
  have h1 := hg1 b1 a ht1
  have h2 := hg2 b2 a ht2
  rw [h1] at h2
  rw [Option.some_inj.mp h2] at hb1
  exact hd b2 hb1 hb2

lemma tagBench_none_of_umbrella (n : String) :
    ∀ t ∈ ([.uBuild n, .uPull n] : List NTag), tagBench t = none := by
  intro t ht
  simp at ht
  rcases ht with rfl | rfl <;> rfl

lemma tagBench_none_of_fz (f : String) :
    ∀ t ∈ ([.fzBuilder f, .fzPullBuilder f] : List NTag),
      tagBench t = none := by
  intro t ht
  simp at ht
  rcases ht with rfl | rfl <;> rfl

lemma disjoint_flat_none {g : String → List NTag} (bs : List String)
    (l2 : List NTag) (hg : ∀ b, ∀ t ∈ g b, tagBench t = some b)
    (h2 : ∀ t ∈ l2, tagBench t = none) : (bs.flatMap g).Disjoint l2 := by
  intro a ha1 ha2
  obtain ⟨b, _, ht⟩ := List.mem_flatMap.mp ha1
  have h1 := hg b a ht
  rw [h2 a ha2] at h1
  simp at h1

lemma nodup_genFuzzerTags (f : String) (bs obs : List String)
    (var : Option FuzzerVariant) (hbs : bs.Nodup) (hobs : obs.Nodup)
    (hd : ∀ b ∈ bs, b ∉ obs) : (genFuzzerTags f bs obs var).Nodup := by
  cases var with
  | some v =>
    show ((bs.flatMap (runTargetTags v.name) ++
      obs.flatMap (runTargetTags v.name)) ++
      [NTag.uBuild v.name, NTag.uPull v.name]).Nodup
    rw [List.nodup_append, List.nodup_append]
    refine ⟨⟨nodup_flat_runTargetTags v.name bs hbs,
      nodup_flat_runTargetTags v.name obs hobs,
      bench_disjoint_of_mem bs obs hd (tagBench_runTargetTags v.name)
        (tagBench_runTargetTags v.name)⟩, by simp, ?_⟩
    intro a ha1 ha2
    rcases List.mem_append.mp ha1 with ha | ha
    · exact disjoint_flat_none bs _ (tagBench_runTargetTags v.name)
        (tagBench_none_of_umbrella v.name) ha ha2
    · exact disjoint_flat_none obs _ (tagBench_runTargetTags v.name)
        (tagBench_none_of_umbrella v.name) ha ha2
  | none =>
    show ((([NTag.fzBuilder f, NTag.fzPullBuilder f] ++
      bs.flatMap (benchTags f)) ++
      obs.flatMap (ossBenchTags f)) ++ [NTag.uBuild f, NTag.uPull f]).Nodup
    rw [List.nodup_append, List.nodup_append, List.nodup_append]
    refine ⟨⟨⟨by simp, nodup_flat_benchTags f bs hbs, ?_⟩,
      nodup_flat_ossBenchTags f obs hobs, ?_⟩, by simp, ?_⟩
    · intro a ha1 ha2
      obtain ⟨b, _, ht⟩ := List.mem_flatMap.mp ha2
      have h1 := tagBench_benchTags f b a ht
      rw [tagBench_none_of_fz f a ha1] at h1
      simp at h1
    · intro a ha1 ha2
      rcases List.mem_append.mp ha1 with ha | ha
      · obtain ⟨b, _, ht⟩ := List.mem_flatMap.mp ha2
        have h1 := tagBench_ossBenchTags f b a ht
        rw [tagBench_none_of_fz f a ha] at h1
        simp at h1
      · exact bench_disjoint_of_mem bs obs hd (tagBench_benchTags f)
          (tagBench_ossBenchTags f) ha ha2
    · intro a ha1 ha2
      rcases List.mem_append.mp ha1 with ha | ha
      · rcases List.mem_append.mp ha with ha | ha
        · simp at ha ha2
          rcases ha with rfl | rfl <;> rcases ha2 with h | h <;> cases h
        · exact disjoint_flat_none bs _ (tagBench_benchTags f)
            (tagBench_none_of_umbrella f) ha ha2
      · exact disjoint_flat_none obs _ (tagBench_ossBenchTags f)
          (tagBench_none_of_umbrella f) ha ha2

/-- The tags of one fuzzer directory: the default rules then each variant's
rules, mirroring the body of `main`'s fuzzer loop. -/
def fuzzerBlockTags (bs obs : List String) (fz : Fuzzer) : List NTag :=
  genFuzzerTags fz.name bs obs none ++
    fz.variants.flatMap fun v => genFuzzerTags fz.name bs obs (some v)

lemma tagOwner_fuzzerBlockTags (bs obs : List String) (fz : Fuzzer) :
    ∀ t ∈ fuzzerBlockTags bs obs fz,
      ∃ n ∈ fz.name :: fz.variants.map (·.name), tagOwner t = some n := by
  intro t ht
  rcases List.mem_append.mp ht with ht | ht
  · exact ⟨fz.name, List.mem_cons_self _ _,
      tagOwner_genFuzzerTags _ _ _ none t ht⟩
  · obtain ⟨v, hv, ht⟩ := List.mem_flatMap.mp ht
    exact ⟨v.name, List.mem_cons_of_mem _ (List.mem_map.mpr ⟨v, hv, rfl⟩),
      tagOwner_genFuzzerTags _ _ _ (some v) t ht⟩

lemma nodup_fuzzerBlockTags (bs obs : List String) (fz : Fuzzer)
    (hbs : bs.Nodup) (hobs : obs.Nodup) (hd : ∀ b ∈ bs, b ∉ obs)
    (hnames : (fz.name :: fz.variants.map (·.name)).Nodup) :
    (fuzzerBlockTags bs obs fz).Nodup := by
  rw [fuzzerBlockTags, List.nodup_append]
  refine ⟨nodup_genFuzzerTags _ _ _ none hbs hobs hd, ?_, ?_⟩
  · refine List.nodup_flatMap.mpr
      ⟨fun v _ => nodup_genFuzzerTags _ _ _ (some v) hbs hobs hd, ?_⟩
    have hvn : (fz.variants.map (·.name)).Nodup :=
      (List.nodup_cons.mp hnames).2
    have hpw := List.pairwise_map.mp hvn
    exact hpw.imp fun hne => disjoint_of_discr tagOwner _ _ _ _
      (tagOwner_genFuzzerTags _ _ _ (some _))
      (tagOwner_genFuzzerTags _ _ _ (some _))
      (fun hs => hne (Option.some_inj.mp hs))
  · intro a ha1 ha2
    have h1 := tagOwner_genFuzzerTags fz.name bs obs none a ha1
    obtain ⟨v, hv, ha2⟩ := List.mem_flatMap.mp ha2
    have h2 := tagOwner_genFuzzerTags fz.name bs obs (some v) a ha2
    rw [h1] at h2
    have heq : fz.name = v.name := Option.some_inj.mp h2
    exact (List.nodup_cons.mp hnames).1
      (heq ▸ List.mem_map.mpr ⟨v, hv, rfl⟩)

/-- Hygiene of a scan input under which the generated target names are
pairwise distinct: all discovered names are nonempty hyphen-free tokens,
no fuzzer is named `pull`, no benchmark is named `all`, fuzzer and variant
names are globally distinct, the two benchmark lists are duplicate-free and
no benchmark carries both marker files (appears in both lists). -/
def GoodScan (s : Scan) : Prop :=
  (∀ fz ∈ s.fuzzers,
    (fz.name ≠ "" ∧ '-' ∉ fz.name.data ∧ fz.name ≠ "pull") ∧
    ∀ v ∈ fz.variants, v.name ≠ "" ∧ '-' ∉ v.name.data) ∧
  (∀ b ∈ s.benchmarks ++ s.ossFuzzBenchmarks,
    b ≠ "" ∧ '-' ∉ b.data ∧ b ≠ "all") ∧
  (fuzzersAndVariants s.fuzzers).Nodup ∧
  s.benchmarks.Nodup ∧ s.ossFuzzBenchmarks.Nodup ∧
  ∀ b ∈ s.benchmarks, b ∉ s.ossFuzzBenchmarks

lemma nodup_genAllTags (s : Scan) (hg : GoodScan s) :
    (genAllTags s).Nodup := by
  obtain ⟨_, _, hfv, hbs, hobs, hd⟩ := hg
  have hblocks := List.nodup_flatMap.mp hfv
  rw [genAllTags, List.nodup_append]
  refine ⟨?_, by simp, ?_⟩
  · refine List.nodup_flatMap.mpr ⟨?_, ?_⟩
    · intro fz hfz
      exact nodup_fuzzerBlockTags s.benchmarks s.ossFuzzBenchmarks fz hbs
        hobs hd (hblocks.1 fz hfz)
    · refine hblocks.2.imp ?_
      intro f1 f2 hdisj a ha1 ha2
      obtain ⟨n1, hn1, ho1⟩ :=
        tagOwner_fuzzerBlockTags s.benchmarks s.ossFuzzBenchmarks f1 a ha1
      obtain ⟨n2, hn2, ho2⟩ :=
        tagOwner_fuzzerBlockTags s.benchmarks s.ossFuzzBenchmarks f2 a ha2
      rw [ho1] at ho2
      exact hdisj hn1 (Option.some_inj.mp ho2 ▸ hn2)
  · intro a ha1 ha2
    obtain ⟨fz, _, ha1⟩ := List.mem_flatMap.mp ha1
    obtain ⟨n, _, ho⟩ :=
      tagOwner_fuzzerBlockTags s.benchmarks s.ossFuzzBenchmarks fz a ha1
    have hnone : tagOwner a = none := by
      simp at ha2
      rcases ha2 with rfl | rfl <;> rfl
    rw [hnone] at ho
    simp at ho

lemma good_runTargetTags (n b : String)
    (hn : n ≠ "" ∧ '-' ∉ n.data)
    (hb : b ≠ "" ∧ '-' ∉ b.data ∧ b ≠ "all") :
    ∀ t ∈ runTargetTags n b, tagGood t := by
  intro t ht
  simp [runTargetTags] at ht
  rcases ht with rfl | rfl | rfl | rfl | rfl <;> exact ⟨hn, hb⟩

lemma good_benchTags (f b : String)
    (hf : f ≠ "" ∧ '-' ∉ f.data ∧ f ≠ "pull")
    (hb : b ≠ "" ∧ '-' ∉ b.data ∧ b ≠ "all") :
    ∀ t ∈ benchTags f b, tagGood t := by
  intro t ht
  by_cases hcov : coverageOnly f <;>
    · simp [benchTags, runTargetTags, hcov] at ht
      rcases ht with rfl | rfl | rfl | rfl | rfl | rfl | rfl | rfl | rfl |
        rfl | rfl <;>
        first
          | exact ⟨hf, hb.1, hb.2.1⟩
          | exact ⟨⟨hf.1, hf.2.1⟩, hb⟩

lemma good_ossBenchTags (f b : String)
    (hf : f ≠ "" ∧ '-' ∉ f.data ∧ f ≠ "pull")
    (hb : b ≠ "" ∧ '-' ∉ b.data ∧ b ≠ "all") :
    ∀ t ∈ ossBenchTags f b, tagGood t := by
  intro t ht
  by_cases hcov : coverageOnly f <;>
    · simp [ossBenchTags, runTargetTags, hcov] at ht
      rcases ht with rfl | rfl | rfl | rfl | rfl | rfl | rfl | rfl | rfl |
        rfl | rfl | rfl | rfl <;>
        first
          | exact ⟨hf, hb.1, hb.2.1⟩
          | exact ⟨⟨hf.1, hf.2.1⟩, hb⟩

lemma good_genFuzzerTags (f : String) (bs obs : List String)
    (var : Option FuzzerVariant)
    (hf : f ≠ "" ∧ '-' ∉ f.data ∧ f ≠ "pull")
    (hn : fuzzerVariantName f var ≠ "" ∧
      '-' ∉ (fuzzerVariantName f var).data)
    (hb : ∀ b ∈ bs ++ obs, b ≠ "" ∧ '-' ∉ b.data ∧ b ≠ "all") :
    ∀ t ∈ genFuzzerTags f bs obs var, tagGood t := by
  intro t ht
  cases var with
  | some v =>
    simp only [genFuzzerTags, List.mem_append, List.mem_flatMap] at ht
    rcases ht with ((⟨b, hbm, ht⟩ | ⟨b, hbm, ht⟩) | ht)
    · exact good_runTargetTags v.name b hn
        (hb b (List.mem_append_left _ hbm)) t ht
    · exact good_runTargetTags v.name b hn
        (hb b (List.mem_append_right _ hbm)) t ht
    · simp at ht
      rcases ht with rfl | rfl <;> exact hn
  | none =>
    simp only [genFuzzerTags, List.mem_append, List.mem_flatMap] at ht
    rcases ht with (((ht | ⟨b, hbm, ht⟩) | ⟨b, hbm, ht⟩) | ht)
    · simp at ht
      rcases ht with rfl | rfl <;> exact hf
    · exact good_benchTags f b hf (hb b (List.mem_append_left _ hbm)) t ht
    · exact good_ossBenchTags f b hf
        (hb b (List.mem_append_right _ hbm)) t ht
    · simp at ht
      rcases ht with rfl | rfl <;> exact hn

lemma good_genAllTags (s : Scan) (hg : GoodScan s) :
    ∀ t ∈ genAllTags s, tagGood t := by
  obtain ⟨hfz, hb, _, _, _, _⟩ := hg
  intro t ht
  rw [genAllTags, List.mem_append] at ht
  rcases ht with ht | ht
  · obtain ⟨fz, hfzm, ht⟩ := List.mem_flatMap.mp ht
    rcases List.mem_append.mp ht with ht | ht
    · exact good_genFuzzerTags fz.name _ _ none ((hfz fz hfzm).1)
        ⟨(hfz fz hfzm).1.1, (hfz fz hfzm).1.2.1⟩ hb t ht
    · obtain ⟨v, hv, ht⟩ := List.mem_flatMap.mp ht
      exact good_genFuzzerTags fz.name _ _ (some v) ((hfz fz hfzm).1)
        ((hfz fz hfzm).2 v hv) hb t ht
  · simp at ht
    rcases ht with rfl | rfl <;> trivial

/-- C8 counterexample: a benchmark directory carrying both marker files
appears in both scanned benchmark lists, and the generation run emits
duplicate target names (e.g. `build-afl-x` from both the standard and the
externally-derived template), contradicting the claim that names stay
globally unique in that case. -/
theorem unique_names_cex :
    ¬ ((generate_all ⟨[⟨"afl", []⟩], ["x"], ["x"]⟩).map Rule.name).Nodup := by
  decide

/-- C8 amended: every target name emitted in one generation run is globally
unique provided the scan is hygienic: no benchmark carries both marker
files, the benchmark lists are duplicate-free, fuzzer and variant names are
globally distinct, all names are nonempty hyphen-free tokens, no fuzzer is
named `pull` and no benchmark is named `all` (each of these conditions has a
concrete colliding scan when dropped). -/
theorem unique_names_amended (s : Scan) (hg : GoodScan s) :
    ((generate_all s).map Rule.name).Nodup := by
  rw [names_genAll]
  refine List.Nodup.map_on ?_ (nodup_genAllTags s hg)
  intro t1 h1 t2 h2 heq
  exact tagStr_inj t1 t2 (good_genAllTags s hg t1 h1)
    (good_genAllTags s hg t2 h2) heq

/-- Witness for C8 amended: a hygienic concrete scan with one fuzzer, one
variant, one standard and one externally-derived benchmark. -/
theorem unique_names_amended_witness :
    ((generate_all ⟨[⟨"afl", [⟨"v1", []⟩]⟩], ["x"], ["y"]⟩).map
      Rule.name).Nodup :=
  unique_names_amended ⟨[⟨"afl", [⟨"v1", []⟩]⟩], ["x"], ["y"]⟩
    (by unfold GoodScan; decide)

end FuzzBench
